import Mathlib

/-!
# bda: the Athena query execution engine

A shallow embedding of `bda.go` (package `bda`): the type coercer `formatChange`,
the row decoder `processRow`, the result paginator `processResultRows`, the
completion poller `WaitForQueryToComplete`, the submitter `PrepareQuery` and the
orchestrator `ExecuteQuery`, followed by theorems about them.

Modelling conventions.

* Go strings are Lean `String`s.  `strconv` walks a string byte by byte; every
  byte of a non-ASCII character is at least `0x80`, hence not a digit, so walking
  it character by character takes the same branches.
* A Go slice is a `List`; the nil slice and the empty slice are both `[]`.
* A Go `error` is `Option GoError`, `none` being the nil error.
* Machine integers are `Int`/`Nat` with explicit wrap-around (`wrapSigned`, `% 2^64`).
* Pointers that the code dereferences without a test (`bda.awsConfig`, the SDK outputs,
  rows and cells, `colInfo.Name`, `colInfo.Type`, `Status.State`) are taken to be
  non-nil; the pointer fields the code tests against nil (`VarCharValue`, `NextToken`)
  are `Option`s, and so are the query execution ids, which are only passed on.
* The field `Type` of `athena.ColumnInfo` is spelled `Type_`.
* A run-time panic is an explicit outcome, and loops whose exit depends on the
  remote service take a fuel argument.
-/

namespace Bda

/-! ## Go standard library: `strconv` -/

/-- The two error conditions a `strconv.NumError` carries for the calls the program makes. -/
inductive NumError where
  | ErrSyntax
  | ErrRange
  deriving DecidableEq, Repr

/-- Largest `uint64`. -/
def maxUint64 : Nat := 2 ^ 64 - 1

/-- Two's complement conversion of an integer to a signed integer of `w` bits
(Go's `int8(x)`, `int16(x)`, `int32(x)`, `int64(x)`). -/
def wrapSigned (w : Nat) (x : Int) : Int :=
  (x + 2 ^ (w - 1)) % 2 ^ w - 2 ^ (w - 1)

/-- The digit loop of `strconv.ParseUint` for base 10, with `n` the `uint64` accumulator.
For base 10 every byte other than `'0'..'9'` ends in `syntaxError` (a letter has
digit value at least 10, which is not below the base; `'_'` is only skipped for base 0).
An overflow returns at once, before the rest of the text is looked at. -/
def ParseUintLoop (maxVal : Nat) : List Char → Nat → Nat × Option NumError
  | [], n => (n, none)
  | c :: cs, n =>
    if c.isDigit then
      let d := c.toNat - '0'.toNat
      if n ≥ maxUint64 / 10 + 1 then
        (maxVal, some NumError.ErrRange)
      else
        let n10 := (n * 10) % 2 ^ 64
        let n1 := (n10 + d) % 2 ^ 64
        if n1 < n10 ∨ n1 > maxVal then
          (maxVal, some NumError.ErrRange)
        else
          ParseUintLoop maxVal cs n1
    else
      (0, some NumError.ErrSyntax)

/-- Go's `strconv.ParseUint(s, 10, bitSize)` on the characters of `s`, for
`1 ≤ bitSize ≤ 64`; `maxVal` is `1<<bitSize - 1`. -/
def ParseUint (s : List Char) (bitSize : Nat) : Nat × Option NumError :=
  if s = [] then
    (0, some NumError.ErrSyntax)
  else
    ParseUintLoop (2 ^ bitSize - 1) s 0

/-- Go's `strconv.ParseInt(s, 10, bitSize)`, for `1 ≤ bitSize ≤ 64`: the value and the
error, both of which Go returns.  It follows the library's code: the sign is picked
off, `ParseUint` reads the rest, a syntax error gives 0, and a magnitude beyond the
signed range gives the nearest bound together with a range error. -/
def ParseInt (s : String) (bitSize : Nat) : Int × Option NumError :=
  match s.data with
  | [] => (0, some NumError.ErrSyntax)
  | c :: cs =>
    let neg : Bool := c = '-'
    let body := if c = '+' ∨ c = '-' then cs else c :: cs
    let r := ParseUint body bitSize
    if r.2 = some NumError.ErrSyntax then
      (0, some NumError.ErrSyntax)
    else
      let un := r.1
      let cutoff : Nat := 2 ^ (bitSize - 1)
      if neg = false ∧ un ≥ cutoff then
        (wrapSigned 64 ((cutoff : Int) - 1), some NumError.ErrRange)
      else if neg = true ∧ un > cutoff then
        (wrapSigned 64 (-(wrapSigned 64 (cutoff : Int))), some NumError.ErrRange)
      else
        let n := wrapSigned 64 (un : Int)
        (if neg then wrapSigned 64 (-n) else n, none)

/-- Go's `strconv.ParseBool`. -/
def ParseBool (str : String) : Bool × Option NumError :=
  if str ∈ ["1", "t", "T", "TRUE", "true", "True"] then
    (true, none)
  else if str ∈ ["0", "f", "F", "FALSE", "false", "False"] then
    (false, none)
  else
    (false, some NumError.ErrSyntax)

/-- A Go `float64`, kept as its IEEE 754 bit pattern. -/
structure Float64 where
  bits : Nat
  deriving DecidableEq, Repr

/-! ## Values and maps -/

/-- The dynamic values (`interface{}`) that `formatChange` and `processRow` produce. -/
inductive Value where
  | nil
  | string (s : String)
  | int8 (i : Int)
  | int16 (i : Int)
  | int32 (i : Int)
  | int64 (i : Int)
  | float64 (f : Float64)
  | bool (b : Bool)
  deriving DecidableEq, Repr

/-- A Go `map[string]interface{}`: an association list holding each key at most once.
The order of the entries has no counterpart in Go and is never observed by the theorems. -/
abbrev GoMap := List (String × Value)

/-- The assignment `m[k] = v`. -/
def GoMap.set : GoMap → String → Value → GoMap
  | [], k, v => [(k, v)]
  | (k', v') :: rest, k, v =>
    if k' = k then (k, v) :: rest else (k', v') :: GoMap.set rest k v

/-- The lookup `v, ok := m[k]`; `none` when the key is absent. -/
def GoMap.get : GoMap → String → Option Value
  | [], _ => none
  | (k', v') :: rest, k => if k' = k then some v' else GoMap.get rest k

/-! ## Type coercer -/

/-- The function `formatChange` of `bda.go`.  `strconv.ParseFloat` is a parameter.
The test `&varValue == nil` of the source compares the address of a local variable
with nil and is never true. -/
def formatChange (ParseFloat : String → Float64 × Option NumError)
    (varType : String) (varValue : String) : Value :=
  if varType = "varchar" then Value.string varValue
  else if varType = "tinyint" then Value.int8 (wrapSigned 8 (ParseInt varValue 8).1)
  else if varType = "smallint" then Value.int16 (wrapSigned 16 (ParseInt varValue 16).1)
  else if varType = "integer" then Value.int32 (wrapSigned 32 (ParseInt varValue 32).1)
  else if varType = "bigint" then Value.int64 (wrapSigned 64 (ParseInt varValue 64).1)
  else if varType = "double" then Value.float64 (ParseFloat varValue).1
  else if varType = "boolean" then Value.bool (ParseBool varValue).1
  else if varType = "date" then Value.string varValue
  else if varType = "timestamp" then Value.string varValue
  else Value.string varValue

/-! ## Run-time outcomes -/

/-- A Go error value: the message of `errors.New`, or what the SDK returned. -/
abbrev GoError := String

/-- A Go run-time panic.  The only one the modelled code can raise is the slice
index check of `row.Data[idx]`. -/
inductive Panic where
  | indexOutOfRange (index : Nat) (length : Nat)
  deriving DecidableEq, Repr

/-- How a call of a function that talks to the service ends: it returned, it
panicked, or its loop was still going round when the fuel ran out. -/
inductive Outcome (α : Type) where
  | returned (a : α)
  | panicked (p : Panic)
  | running
  deriving DecidableEq, Repr

/-! ## AWS SDK data (package `athena`) -/

/-- The `athena.Datum` of the SDK: one cell. -/
structure Datum where
  VarCharValue : Option String
  deriving DecidableEq, Repr

/-- The `athena.Row` of the SDK. -/
structure Row where
  Data : List Datum
  deriving DecidableEq, Repr

/-- The `athena.ColumnInfo` of the SDK, cut down to the two fields the program reads. -/
structure ColumnInfo where
  Name : String
  Type_ : String
  deriving DecidableEq, Repr

/-- The `athena.ResultSetMetadata` of the SDK. -/
structure ResultSetMetadata where
  ColumnInfo : List ColumnInfo
  deriving DecidableEq, Repr

/-- The `athena.ResultSet` of the SDK. -/
structure ResultSet where
  ResultSetMetadata : ResultSetMetadata
  Rows : List Row
  deriving DecidableEq, Repr

/-- The `athena.GetQueryResultsOutput` of the SDK: one result page. -/
structure GetQueryResultsOutput where
  NextToken : Option String
  ResultSet : ResultSet
  deriving DecidableEq, Repr

/-- The `athena.GetQueryResultsInput` of the SDK. -/
structure GetQueryResultsInput where
  QueryExecutionId : Option String
  NextToken : Option String
  deriving DecidableEq, Repr

/-- The `athena.GetQueryExecutionInput` of the SDK. -/
structure GetQueryExecutionInput where
  QueryExecutionId : Option String
  deriving DecidableEq, Repr

/-- The `athena.GetQueryExecutionOutput` of the SDK, cut down to `QueryExecution.Status.State`. -/
structure GetQueryExecutionOutput where
  State : String
  deriving DecidableEq, Repr

/-- The `athena.StartQueryExecutionInput` of the SDK, with `QueryExecutionContext.Database`
and `ResultConfiguration.OutputLocation` flattened. -/
structure StartQueryExecutionInput where
  QueryString : String
  Database : String
  OutputLocation : String
  deriving DecidableEq, Repr

/-- The `athena.StartQueryExecutionOutput` of the SDK. -/
structure StartQueryExecutionOutput where
  QueryExecutionId : Option String
  deriving DecidableEq, Repr

/-- SDK constant `athena.QueryExecutionStateQueued`. -/
def QueryExecutionStateQueued : String := "QUEUED"
/-- SDK constant `athena.QueryExecutionStateRunning`. -/
def QueryExecutionStateRunning : String := "RUNNING"
/-- SDK constant `athena.QueryExecutionStateSucceeded`. -/
def QueryExecutionStateSucceeded : String := "SUCCEEDED"
/-- SDK constant `athena.QueryExecutionStateFailed`. -/
def QueryExecutionStateFailed : String := "FAILED"
/-- SDK constant `athena.QueryExecutionStateCancelled`. -/
def QueryExecutionStateCancelled : String := "CANCELLED"

/-- One remote call to the query service. -/
inductive Call where
  | StartQueryExecution (input : StartQueryExecutionInput)
  | GetQueryExecution (input : GetQueryExecutionInput)
  | GetQueryResults (input : GetQueryResultsInput)
  deriving DecidableEq, Repr

/-- The query service behind `*athena.Athena`.  Each operation answers a request given
the list of the calls made before it, oldest first; any behaviour of the remote
service along one run is such a function. -/
structure Athena where
  StartQueryExecution :
    List Call → StartQueryExecutionInput → Except GoError StartQueryExecutionOutput
  GetQueryExecution :
    List Call → GetQueryExecutionInput → Except GoError GetQueryExecutionOutput
  GetQueryResults :
    List Call → GetQueryResultsInput → Except GoError GetQueryResultsOutput

/-! ## Configuration -/

/-- The struct `DbConfig` of `bda.go`. -/
structure DbConfig where
  Name : String
  SourceBulk : String
  ResultBulk : String
  deriving DecidableEq, Repr

/-- The struct `AwsConfig` of `bda.go`; the map `DbConfig` is an association list. -/
structure AwsConfig where
  AwsID : String
  AwsKey : String
  AwsRegion : String
  DbConfig : List (String × DbConfig)
  deriving DecidableEq, Repr

/-- The Go map index expression `m[k]` on a `map[string]DbConfig`: the zero value
when the key is absent. -/
def dbConfigIndex : List (String × DbConfig) → String → DbConfig
  | [], _ => { Name := "", SourceBulk := "", ResultBulk := "" }
  | (k', c) :: rest, k => if k' = k then c else dbConfigIndex rest k

/-! ## Row decoder -/

/-- The `range columnInfoList` loop of `processRow`, from index `idx` on. -/
def processRowLoop (ParseFloat : String → Float64 × Option NumError) (row : Row) :
    List ColumnInfo → Nat → GoMap → Except Panic GoMap
  | [], _, returnResult => Except.ok returnResult
  | colInfo :: rest, idx, returnResult =>
    match row.Data[idx]? with
    | none => Except.error (Panic.indexOutOfRange idx row.Data.length)
    | some datum =>
      match datum.VarCharValue with
      | none =>
        processRowLoop ParseFloat row rest (idx + 1) (returnResult.set colInfo.Name Value.nil)
      | some text =>
        processRowLoop ParseFloat row rest (idx + 1)
          (returnResult.set colInfo.Name (formatChange ParseFloat colInfo.Type_ text))

/-- The function `processRow` of `bda.go`: the map and the (always nil) error, or a panic.
The variadic `columnNames` is never read and is left out. -/
def processRow (ParseFloat : String → Float64 × Option NumError) (row : Row)
    (columnInfoList : List ColumnInfo) : Except Panic (GoMap × Option GoError) :=
  match processRowLoop ParseFloat row columnInfoList 0 [] with
  | Except.ok returnResult => Except.ok (returnResult, none)
  | Except.error p => Except.error p

/-! ## Result paginator -/

/-- The inner `range rows` loop of `processResultRows`, from index `idx` on: the
extended `queryResults`, or the error of `processRow` that makes the function return,
or a panic. -/
def processRows (ParseFloat : String → Float64 × Option NumError)
    (columnInfoList : List ColumnInfo) :
    List Row → Nat → List GoMap → Except Panic (Except GoError (List GoMap))
  | [], _, queryResults => Except.ok (Except.ok queryResults)
  | row :: rows, idx, queryResults =>
    if idx ≠ 0 then
      match processRow ParseFloat row columnInfoList with
      | Except.error p => Except.error p
      | Except.ok (_, some err) => Except.ok (Except.error err)
      | Except.ok (queryResult, none) =>
        processRows ParseFloat columnInfoList rows (idx + 1) (queryResults ++ [queryResult])
    else
      processRows ParseFloat columnInfoList rows (idx + 1) queryResults

/-- The `for true` loop of `processResultRows`, entered with the page `res` just fetched.
One unit of fuel is spent per page. -/
def processResultRowsLoop (ParseFloat : String → Float64 × Option NumError) (svcAthn : Athena)
    (qeID : Option String) (columnInfoList : List ColumnInfo) :
    Nat → List Call → GetQueryResultsOutput → List GoMap →
      Outcome (List GoMap × Option GoError) × List Call
  | 0, hist, _, _ => (Outcome.running, hist)
  | fuel + 1, hist, res, queryResults =>
    match processRows ParseFloat columnInfoList res.ResultSet.Rows 0 queryResults with
    | Except.error p => (Outcome.panicked p, hist)
    | Except.ok (Except.error err) => (Outcome.returned ([], some err), hist)
    | Except.ok (Except.ok queryResults) =>
      match res.NextToken with
      | none => (Outcome.returned (queryResults, none), hist)
      | some tok =>
        let req : GetQueryResultsInput := { QueryExecutionId := qeID, NextToken := some tok }
        match svcAthn.GetQueryResults hist req with
        | Except.error err =>
          (Outcome.returned (queryResults, some err), hist ++ [Call.GetQueryResults req])
        | Except.ok res' =>
          processResultRowsLoop ParseFloat svcAthn qeID columnInfoList fuel
            (hist ++ [Call.GetQueryResults req]) res' queryResults

/-- The function `processResultRows` of `bda.go`, started after the calls `hist`: what it
returns and the calls made up to then.  The variadic `args` is only handed to
`processRow`, which never reads it, and is left out. -/
def processResultRows (ParseFloat : String → Float64 × Option NumError) (svcAthn : Athena)
    (fuel : Nat) (hist : List Call) (qeID : Option String) :
    Outcome (List GoMap × Option GoError) × List Call :=
  let req : GetQueryResultsInput := { QueryExecutionId := qeID, NextToken := none }
  match svcAthn.GetQueryResults hist req with
  | Except.error err => (Outcome.returned ([], some err), hist ++ [Call.GetQueryResults req])
  | Except.ok res =>
    let columnInfoList := res.ResultSet.ResultSetMetadata.ColumnInfo
    if columnInfoList.length = 0 then
      (Outcome.returned ([], some "zero column info"), hist ++ [Call.GetQueryResults req])
    else
      processResultRowsLoop ParseFloat svcAthn qeID columnInfoList fuel
        (hist ++ [Call.GetQueryResults req]) res []

/-! ## Completion poller -/

/-- The function `WaitForQueryToComplete` of `bda.go`, started after the calls `hist`.
One unit of fuel is spent per status request. -/
def WaitForQueryToComplete (svcAth : Athena) (queryExecutionID : Option String) :
    Nat → List Call → Outcome (Option GoError) × List Call
  | 0, hist => (Outcome.running, hist)
  | fuel + 1, hist =>
    let req : GetQueryExecutionInput := { QueryExecutionId := queryExecutionID }
    match svcAth.GetQueryExecution hist req with
    | Except.error err => (Outcome.returned (some err), hist ++ [Call.GetQueryExecution req])
    | Except.ok out =>
      if out.State = QueryExecutionStateCancelled then
        (Outcome.returned (some "query execution is cancelled"),
          hist ++ [Call.GetQueryExecution req])
      else if out.State = QueryExecutionStateFailed then
        (Outcome.returned (some "query execution is failed"),
          hist ++ [Call.GetQueryExecution req])
      else if out.State = QueryExecutionStateSucceeded then
        (Outcome.returned none, hist ++ [Call.GetQueryExecution req])
      else
        WaitForQueryToComplete svcAth queryExecutionID fuel
          (hist ++ [Call.GetQueryExecution req])

/-! ## Submitter and orchestrator -/

/-- The method `PrepareQuery` of `bda.go`, started after the calls `hist`: the returned
pair (query execution id, error) and the calls made up to then. -/
def PrepareQuery (svcAthena : Athena) (awsConfig : AwsConfig) (hist : List Call)
    (dbName : String) (query : String) : (Option String × Option GoError) × List Call :=
  if awsConfig.DbConfig.length = 0 then
    ((none, some "db config is not available"), hist)
  else
    let req : StartQueryExecutionInput :=
      { QueryString := query
        Database := (dbConfigIndex awsConfig.DbConfig dbName).Name
        OutputLocation := (dbConfigIndex awsConfig.DbConfig dbName).ResultBulk }
    match svcAthena.StartQueryExecution hist req with
    | Except.error err => ((none, some err), hist ++ [Call.StartQueryExecution req])
    | Except.ok out => ((out.QueryExecutionId, none), hist ++ [Call.StartQueryExecution req])

/-- The method `ExecuteQuery` of `bda.go`, started after the calls `hist`.  The same
fuel bounds the polling loop and the page loop. -/
def ExecuteQuery (ParseFloat : String → Float64 × Option NumError) (svcAthena : Athena)
    (fuel : Nat) (hist : List Call) (qeID : Option String) :
    Outcome (List GoMap × Option GoError) × List Call :=
  match WaitForQueryToComplete svcAthena qeID fuel hist with
  | (Outcome.running, h) => (Outcome.running, h)
  | (Outcome.panicked p, h) => (Outcome.panicked p, h)
  | (Outcome.returned (some err), h) => (Outcome.returned ([], some err), h)
  | (Outcome.returned none, h) =>
    match processResultRows ParseFloat svcAthena fuel h qeID with
    | (Outcome.running, h') => (Outcome.running, h')
    | (Outcome.panicked p, h') => (Outcome.panicked p, h')
    | (Outcome.returned (_, some err), h') => (Outcome.returned ([], some err), h')
    | (Outcome.returned (result, none), h') => (Outcome.returned (result, none), h')

/-! ## Behaviours of the service -/

/-- The status requests for `qeID` made after the calls `hist` are answered with the
states `obs`, one per request, and the request after those is answered with `last`. -/
def Observes (svc : Athena) (qeID : Option String) :
    List Call → List String → Except GoError GetQueryExecutionOutput → Prop
  | hist, [], last => svc.GetQueryExecution hist { QueryExecutionId := qeID } = last
  | hist, s :: rest, last =>
    svc.GetQueryExecution hist { QueryExecutionId := qeID } = Except.ok { State := s } ∧
    Observes svc qeID (hist ++ [Call.GetQueryExecution { QueryExecutionId := qeID }]) rest last

/-- The page requests for `qeID` made after the calls `hist`, the first with token `tok`
and each further one with the token of the page before, are answered with `pages`.
With `final = none` the last page carries no token; with `final = some e` every page
carries one and the request after the last page fails with `e`. -/
def Serves (svc : Athena) (qeID : Option String) :
    List Call → Option String → List GetQueryResultsOutput → Option GoError → Prop
  | hist, tok, [], final =>
    ∃ e, final = some e ∧
      svc.GetQueryResults hist { QueryExecutionId := qeID, NextToken := tok } = Except.error e
  | hist, tok, p :: rest, final =>
    svc.GetQueryResults hist { QueryExecutionId := qeID, NextToken := tok } = Except.ok p ∧
    match p.NextToken with
    | none => rest = [] ∧ final = none
    | some t =>
      Serves svc qeID
        (hist ++ [Call.GetQueryResults { QueryExecutionId := qeID, NextToken := tok }])
        (some t) rest final

/-- The page requests made while following `pages` from the token `tok`. -/
def fetches (qeID : Option String) : Option String → List GetQueryResultsOutput → List Call
  | tok, [] => [Call.GetQueryResults { QueryExecutionId := qeID, NextToken := tok }]
  | tok, p :: rest =>
    Call.GetQueryResults { QueryExecutionId := qeID, NextToken := tok } ::
      (match p.NextToken with
       | none => []
       | some t => fetches qeID (some t) rest)

/-- The status requests: `n` times the same call. -/
def polls (qeID : Option String) (n : Nat) : List Call :=
  List.replicate n (Call.GetQueryExecution { QueryExecutionId := qeID })

/-! ## The scenario of the specification -/

/-- A `strconv.ParseFloat` stand-in for the concrete runs below, none of which has a
`double` column. -/
def noFloat : String → Float64 × Option NumError :=
  fun _ => ({ bits := 0 }, none)

/-- Columns `id integer`, `name varchar`. -/
def scenarioColumns : List ColumnInfo :=
  [{ Name := "id", Type_ := "integer" }, { Name := "name", Type_ := "varchar" }]

/-- A row of two text cells. -/
def textRow (a b : String) : Row :=
  { Data := [{ VarCharValue := some a }, { VarCharValue := some b }] }

/-- Page 1 of the scenario: the header echo and two data rows, token `p2`. -/
def scenarioPage1 : GetQueryResultsOutput :=
  { NextToken := some "p2"
    ResultSet :=
      { ResultSetMetadata := { ColumnInfo := scenarioColumns }
        Rows := [textRow "id" "name", textRow "1" "a", textRow "2" "b"] } }

/-- Page 2 of the scenario: one data row, no token. -/
def scenarioPage2 : GetQueryResultsOutput :=
  { NextToken := none
    ResultSet :=
      { ResultSetMetadata := { ColumnInfo := scenarioColumns }
        Rows := [textRow "3" "c"] } }

/-- The number of status requests among the calls. -/
def countPolls : List Call → Nat
  | [] => 0
  | Call.GetQueryExecution _ :: rest => countPolls rest + 1
  | _ :: rest => countPolls rest

/-- The service of the scenario: handle `H`, states Running, Running, Succeeded, and
the two pages, the second one under the token `p2`. -/
def scenarioAthena : Athena where
  StartQueryExecution := fun _ _ => Except.ok { QueryExecutionId := some "H" }
  GetQueryExecution := fun hist _ =>
    if countPolls hist < 2 then Except.ok { State := QueryExecutionStateRunning }
    else Except.ok { State := QueryExecutionStateSucceeded }
  GetQueryResults := fun _ req =>
    match req.NextToken with
    | none => Except.ok scenarioPage1
    | some tok =>
      if tok = "p2" then Except.ok scenarioPage2 else Except.error "InvalidRequestException"

/-- The bindings of the scenario: the logical name `cart`. -/
def scenarioConfig : AwsConfig :=
  { AwsID := "AWS_ID", AwsKey := "AWS_KEY", AwsRegion := "AWS_REGION"
    DbConfig := [("cart", { Name := "cart", SourceBulk := "tokopedia/cart/",
                            ResultBulk := "s3://results/" })] }

/-! ## Notions the statements use -/

/-- The number a list of decimal digits denotes, read after the digits already
summed up in `acc`. -/
def decimalValue (acc : Nat) (ds : List Char) : Nat :=
  ds.foldl (fun a c => a * 10 + (c.toNat - '0'.toNat)) acc

/-- The integer that a sign (`+`, `-` or none) and a list of decimal digits denote. -/
def signedValue (sign : List Char) (ds : List Char) : Int :=
  if sign = ['-'] then -(decimalValue 0 ds : Int) else (decimalValue 0 ds : Int)

/-- The integer column types of `formatChange`: the declared type, the bit size handed
to `strconv.ParseInt`, and the Go integer type of the result. -/
def intTypes : List (String × Nat × (Int → Value)) :=
  [("tinyint", 8, Value.int8), ("smallint", 16, Value.int16),
   ("integer", 32, Value.int32), ("bigint", 64, Value.int64)]

/-- The keys of a map. -/
def GoMap.keys (m : GoMap) : List String :=
  m.map Prod.fst

/-- The value `processRow` stores for a cell of a column. -/
def cellValue (ParseFloat : String → Float64 × Option NumError) (colInfo : ColumnInfo)
    (datum : Datum) : Value :=
  match datum.VarCharValue with
  | none => Value.nil
  | some text => formatChange ParseFloat colInfo.Type_ text

/-- The assignments `m[k] = v` for a list of pairs, in order. -/
def GoMap.setAll (m : GoMap) (kvs : List (String × Value)) : GoMap :=
  kvs.foldl (fun acc kv => acc.set kv.1 kv.2) m

/-- The map `processRow` builds from a row that has a cell for every column. -/
def rowMap (ParseFloat : String → Float64 × Option NumError) (columnInfoList : List ColumnInfo)
    (row : Row) : GoMap :=
  GoMap.setAll [] ((columnInfoList.zip row.Data).map
    (fun p => (p.1.Name, cellValue ParseFloat p.1 p.2)))

/-- The rows at positions 1 and up of every page, in page order. -/
def tailRows (pages : List GetQueryResultsOutput) : List Row :=
  (pages.map (fun p => p.ResultSet.Rows.drop 1)).flatten

/-- The page requests made after the page `res`: none when it carries no token. -/
def fetchesAfter (qeID : Option String) (res : GetQueryResultsOutput)
    (rest : List GetQueryResultsOutput) : List Call :=
  match res.NextToken with
  | none => []
  | some t => fetches qeID (some t) rest

/-- What the service does after the page `res`: `Serves` for the pages `rest` under the
token of `res`, or nothing more when `res` carries no token. -/
def ServesAfter (svc : Athena) (qeID : Option String) (hist : List Call)
    (res : GetQueryResultsOutput) (rest : List GetQueryResultsOutput)
    (final : Option GoError) : Prop :=
  match res.NextToken with
  | none => rest = [] ∧ final = none
  | some t => Serves svc qeID hist (some t) rest final

/-- A service whose query succeeds at the second status request and whose first page
is page 1 of the scenario, but which fails every page request that carries a token. -/
def throttledAthena : Athena where
  StartQueryExecution := fun _ _ => Except.ok { QueryExecutionId := some "H" }
  GetQueryExecution := fun hist _ =>
    if countPolls hist < 1 then Except.ok { State := QueryExecutionStateQueued }
    else Except.ok { State := QueryExecutionStateSucceeded }
  GetQueryResults := fun _ req =>
    match req.NextToken with
    | none => Except.ok scenarioPage1
    | some _ => Except.error "ThrottlingException"

/-! ## Decimal texts and `strconv.ParseInt` -/

/-- Reading one more digit. -/
theorem decimalValue_cons (acc : Nat) (c : Char) (ds : List Char) :
    decimalValue acc (c :: ds) = decimalValue (acc * 10 + (c.toNat - '0'.toNat)) ds := rfl

/-- Reading two lists of digits one after the other. -/
theorem decimalValue_append (acc : Nat) (xs ys : List Char) :
    decimalValue acc (xs ++ ys) = decimalValue (decimalValue acc xs) ys := by
  simp [decimalValue, List.foldl_append]

/-- Reading digits never lowers the value summed up so far. -/
theorem le_decimalValue (ds : List Char) : ∀ acc, acc ≤ decimalValue acc ds := by
  induction ds with
  | nil => intro acc; exact Nat.le_refl _
  | cons c ds ih =>
    intro acc
    rw [decimalValue_cons]
    have := ih (acc * 10 + (c.toNat - '0'.toNat))
    omega

/-- A decimal digit has a value below ten. -/
theorem digit_lt_ten (c : Char) (h : c.isDigit = true) : c.toNat - '0'.toNat < 10 := by
  simp only [Char.isDigit, Bool.and_eq_true, decide_eq_true_eq] at h
  have h2 : c.val ≤ 57 := h.2
  have h3 : c.toNat ≤ 57 := by
    simpa [Char.toNat] using (UInt32.le_def.mp h2)
  have : '0'.toNat = 48 := rfl
  omega

/-- One round of the digit loop on a digit that fits. -/
theorem ParseUintLoop_step_fits (maxVal : Nat) (hmax : maxVal < 2 ^ 64) (c : Char)
    (cs : List Char) (n : Nat) (hc : c.isDigit = true)
    (hfit : n * 10 + (c.toNat - '0'.toNat) ≤ maxVal) :
    ParseUintLoop maxVal (c :: cs) n
      = ParseUintLoop maxVal cs (n * 10 + (c.toNat - '0'.toNat)) := by
  have hd := digit_lt_ten c hc
  have h64 : (2 : Nat) ^ 64 = 18446744073709551616 := by norm_num
  rw [h64] at hmax
  have h1 : ¬ (n ≥ maxUint64 / 10 + 1) := by
    simp only [maxUint64, h64]; omega
  have h2 : (n * 10) % 2 ^ 64 = n * 10 := by
    rw [h64]; omega
  have h3 : (n * 10 + (c.toNat - '0'.toNat)) % 2 ^ 64 = n * 10 + (c.toNat - '0'.toNat) := by
    rw [h64]; omega
  simp only [ParseUintLoop, hc, if_true, h1, if_false, h2, h3]
  rw [if_neg]
  omega

/-- One round of the digit loop on a digit that does not fit. -/
theorem ParseUintLoop_step_overflow (maxVal : Nat) (c : Char)
    (cs : List Char) (n : Nat) (hc : c.isDigit = true)
    (hover : maxVal < n * 10 + (c.toNat - '0'.toNat)) :
    ParseUintLoop maxVal (c :: cs) n = (maxVal, some NumError.ErrRange) := by
  have hd := digit_lt_ten c hc
  have h64 : (2 : Nat) ^ 64 = 18446744073709551616 := by norm_num
  simp only [ParseUintLoop, hc, if_true]
  by_cases h1 : n ≥ maxUint64 / 10 + 1
  · rw [if_pos h1]
  · rw [if_neg h1, if_pos]
    simp only [maxUint64, h64] at h1
    rw [h64]
    omega

/-- The digit loop stops with a syntax error at a character that is no digit. -/
theorem ParseUintLoop_nondigit (maxVal : Nat) (c : Char) (cs : List Char) (n : Nat)
    (hc : c.isDigit = false) :
    ParseUintLoop maxVal (c :: cs) n = (0, some NumError.ErrSyntax) := by
  simp [ParseUintLoop, hc]

/-- Digits whose value fits are consumed, and the loop goes on with their value. -/
theorem ParseUintLoop_digits_fit (maxVal : Nat) (hmax : maxVal < 2 ^ 64) (ds rest : List Char) :
    ∀ n, (∀ c ∈ ds, c.isDigit = true) → decimalValue n ds ≤ maxVal →
      ParseUintLoop maxVal (ds ++ rest) n = ParseUintLoop maxVal rest (decimalValue n ds) := by
  induction ds with
  | nil => intro n _ _; rfl
  | cons c ds ih =>
    intro n hds hfit
    have hc : c.isDigit = true := hds c (List.mem_cons_self _ _)
    rw [decimalValue_cons] at hfit
    have hle := le_decimalValue ds (n * 10 + (c.toNat - '0'.toNat))
    rw [List.cons_append, ParseUintLoop_step_fits maxVal hmax c _ n hc (by omega),
      ih _ (fun x hx => hds x (List.mem_cons_of_mem _ hx)) hfit, decimalValue_cons]

/-- Digits whose value does not fit end the loop with the largest value and a range error,
whatever follows them. -/
theorem ParseUintLoop_overflow (maxVal : Nat) (hmax : maxVal < 2 ^ 64) (ds rest : List Char) :
    ∀ n, (∀ c ∈ ds, c.isDigit = true) → n ≤ maxVal → maxVal < decimalValue n ds →
      ParseUintLoop maxVal (ds ++ rest) n = (maxVal, some NumError.ErrRange) := by
  induction ds with
  | nil => intro n _ hn hover; simp [decimalValue] at hover; omega
  | cons c ds ih =>
    intro n hds hn hover
    have hc : c.isDigit = true := hds c (List.mem_cons_self _ _)
    rw [decimalValue_cons] at hover
    by_cases hfit : n * 10 + (c.toNat - '0'.toNat) ≤ maxVal
    · rw [List.cons_append, ParseUintLoop_step_fits maxVal hmax c _ n hc hfit]
      exact ih _ (fun x hx => hds x (List.mem_cons_of_mem _ hx)) hfit hover
    · rw [List.cons_append, ParseUintLoop_step_overflow maxVal c _ n hc (by omega)]

/-- The value and error of `ParseUint` on a nonempty text of digits. -/
theorem ParseUint_digits (bitSize : Nat) (hb : bitSize ≤ 64) (ds : List Char) (hne : ds ≠ [])
    (hds : ∀ c ∈ ds, c.isDigit = true) :
    ParseUint ds bitSize
      = if decimalValue 0 ds ≤ 2 ^ bitSize - 1 then (decimalValue 0 ds, none)
        else (2 ^ bitSize - 1, some NumError.ErrRange) := by
  have hmax : 2 ^ bitSize - 1 < 2 ^ 64 := by
    have : 2 ^ bitSize ≤ 2 ^ 64 := Nat.pow_le_pow_right (by decide) hb
    have : 0 < 2 ^ bitSize := Nat.two_pow_pos bitSize
    omega
  unfold ParseUint
  rw [if_neg hne]
  by_cases hfit : decimalValue 0 ds ≤ 2 ^ bitSize - 1
  · rw [if_pos hfit]
    have := ParseUintLoop_digits_fit _ hmax ds [] 0 hds hfit
    rw [List.append_nil] at this
    rw [this]; rfl
  · rw [if_neg hfit]
    have := ParseUintLoop_overflow _ hmax ds [] 0 hds (Nat.zero_le _) (by omega)
    rw [List.append_nil] at this
    exact this

/-- Converting a value that is already in range changes nothing. -/
theorem wrapSigned_eq_self (w : Nat) (hw : 1 ≤ w) (x : Int)
    (hlo : -(2 : Int) ^ (w - 1) ≤ x) (hhi : x < (2 : Int) ^ (w - 1)) : wrapSigned w x = x := by
  have hpow : (2 : Int) ^ w = 2 * 2 ^ (w - 1) := by
    obtain ⟨k, rfl⟩ : ∃ k, w = k + 1 := ⟨w - 1, by omega⟩
    simp [pow_succ]; ring
  unfold wrapSigned
  rw [hpow, Int.emod_eq_of_lt (by omega) (by omega)]
  omega

/-- An `int64` conversion of a `uint64` below `2^63` keeps it. -/
theorem wrapSigned_64_nat (x : Nat) (hx : x < 2 ^ 63) : wrapSigned 64 (x : Int) = x := by
  have h : (2 : Nat) ^ 63 = 9223372036854775808 := by norm_num
  rw [h] at hx
  unfold wrapSigned
  norm_num
  omega

/-- Negating the `int64` conversion of a `uint64` of at most `2^63` gives its negative,
also at `2^63` itself, where both steps wrap. -/
theorem wrapSigned_64_neg (x : Nat) (hx : x ≤ 2 ^ 63) :
    wrapSigned 64 (-(wrapSigned 64 (x : Int))) = -(x : Int) := by
  have h : (2 : Nat) ^ 63 = 9223372036854775808 := by norm_num
  rw [h] at hx
  unfold wrapSigned
  norm_num
  omega

/-- The range check and sign handling that end `ParseInt`, on a magnitude `un`. -/
theorem ParseInt_clamp (p : Nat) (hp : p ≤ 2 ^ 63) (hp1 : 1 ≤ p) (neg : Bool) (un : Nat) :
    (if neg = false ∧ un ≥ p then
        (wrapSigned 64 ((p : Int) - 1), some NumError.ErrRange)
      else if neg = true ∧ un > p then
        (wrapSigned 64 (-(wrapSigned 64 (p : Int))), some NumError.ErrRange)
      else
        (if neg then wrapSigned 64 (-(wrapSigned 64 (un : Int))) else wrapSigned 64 (un : Int),
          (none : Option NumError)))
      = if neg then
          (if un ≤ p then (-(un : Int), none) else (-(p : Int), some NumError.ErrRange))
        else
          (if un ≤ p - 1 then ((un : Int), none) else ((p : Int) - 1, some NumError.ErrRange)) := by
  have h63 : (2 : Nat) ^ 63 = 9223372036854775808 := by norm_num
  cases neg
  · by_cases h : un ≥ p
    · have h1 : wrapSigned 64 ((p : Int) - 1) = (p : Int) - 1 := by
        have := wrapSigned_64_nat (p - 1) (by omega)
        rwa [Nat.cast_sub hp1, Nat.cast_one] at this
      simp only [true_and, h, if_true, h1, Bool.false_eq_true, if_false]
      rw [if_neg (by omega)]
    · have h1 := wrapSigned_64_nat un (by omega)
      simp only [true_and, h, if_false, h1, Bool.false_eq_true, false_and]
      rw [if_pos (by omega)]
  · by_cases h : un > p
    · simp only [Bool.true_eq_false, false_and, if_false, true_and, h, if_true,
        wrapSigned_64_neg p hp]
      rw [if_neg (by omega)]
    · simp only [Bool.true_eq_false, false_and, if_false, true_and, h, if_true,
        wrapSigned_64_neg un (by omega)]
      rw [if_pos (by omega)]

/-- The first step of `ParseInt` on a nonempty text. -/
theorem ParseInt_cons (w : Nat) (c : Char) (cs : List Char) :
    ParseInt ⟨c :: cs⟩ w =
      (let neg : Bool := c = '-'
       let body := if c = '+' ∨ c = '-' then cs else c :: cs
       let r := ParseUint body w
       if r.2 = some NumError.ErrSyntax then
         (0, some NumError.ErrSyntax)
       else
         let un := r.1
         let cutoff : Nat := 2 ^ (w - 1)
         if neg = false ∧ un ≥ cutoff then
           (wrapSigned 64 ((cutoff : Int) - 1), some NumError.ErrRange)
         else if neg = true ∧ un > cutoff then
           (wrapSigned 64 (-(wrapSigned 64 (cutoff : Int))), some NumError.ErrRange)
         else
           let n := wrapSigned 64 (un : Int)
           (if neg then wrapSigned 64 (-n) else n, none)) := rfl

/-- The value and error of `ParseInt` on an optional sign followed by digits `ds`. -/
theorem ParseInt_of_digits (w : Nat) (hw2 : 2 ≤ w) (hw : w ≤ 64)
    (c : Char) (cs ds : List Char)
    (hbody : (if c = '+' ∨ c = '-' then cs else c :: cs) = ds)
    (hne : ds ≠ []) (hds : ∀ x ∈ ds, x.isDigit = true) :
    ParseInt ⟨c :: cs⟩ w =
      if c = '-' then
        (if decimalValue 0 ds ≤ 2 ^ (w - 1) then (-(decimalValue 0 ds : Int), none)
         else (-(2 : Int) ^ (w - 1), some NumError.ErrRange))
      else
        (if decimalValue 0 ds ≤ 2 ^ (w - 1) - 1 then ((decimalValue 0 ds : Int), none)
         else ((2 : Int) ^ (w - 1) - 1, some NumError.ErrRange)) := by
  have hp : 2 ^ (w - 1) ≤ 2 ^ 63 := Nat.pow_le_pow_right (by decide) (by omega)
  have hp1 : 1 ≤ 2 ^ (w - 1) := Nat.two_pow_pos _
  have hp2 : 2 ≤ 2 ^ (w - 1) := by
    have := Nat.pow_le_pow_right (show 0 < 2 by decide) (show 1 ≤ w - 1 by omega)
    simpa using this
  have hpw : 2 ^ w = 2 * 2 ^ (w - 1) := by
    obtain ⟨k, rfl⟩ : ∃ k, w = k + 1 := ⟨w - 1, by omega⟩
    simp [pow_succ]; ring
  have hcast : ((2 ^ (w - 1) : Nat) : Int) = (2 : Int) ^ (w - 1) := by push_cast; rfl
  rw [ParseInt_cons]
  simp only [hbody, ParseUint_digits w hw ds hne hds]
  generalize decimalValue 0 ds = v
  by_cases hfit : v ≤ 2 ^ w - 1
  · simp only [hfit, if_true, reduceCtorEq, if_false]
    rw [ParseInt_clamp _ hp hp1, ← hcast]
    simp
  · have h1 : ¬ (2 ^ w - 1 ≤ 2 ^ (w - 1)) := by omega
    have h2 : ¬ (2 ^ w - 1 ≤ 2 ^ (w - 1) - 1) := by omega
    have h3 : ¬ (v ≤ 2 ^ (w - 1)) := by omega
    have h4 : ¬ (v ≤ 2 ^ (w - 1) - 1) := by omega
    simp only [hfit, if_false, reduceCtorEq]
    rw [ParseInt_clamp _ hp hp1, ← hcast]
    simp only [h1, h2, h3, h4, if_false]
    simp
/-- The character of a digit below ten is a decimal digit of that value. -/
theorem digitChar_isDigit (k : Nat) (hk : k < 10) :
    (Nat.digitChar k).isDigit = true ∧ (Nat.digitChar k).toNat - '0'.toNat = k := by
  interval_cases k <;> decide

/-- The digits `Nat.toDigitsCore` puts in front of `ds` are decimal digits of value `n`. -/
theorem toDigitsCore_spec (fuel : Nat) : ∀ (n : Nat) (ds : List Char), n < fuel →
    ∃ pre, Nat.toDigitsCore 10 fuel n ds = pre ++ ds ∧ pre ≠ [] ∧
      (∀ c ∈ pre, c.isDigit = true) ∧ decimalValue 0 pre = n := by
  induction fuel with
  | zero => intro n ds h; omega
  | succ fuel ih =>
    intro n ds hn
    have hd := digitChar_isDigit (n % 10) (Nat.mod_lt _ (by decide))
    unfold Nat.toDigitsCore
    by_cases h0 : n / 10 = 0
    · refine ⟨[Nat.digitChar (n % 10)], by simp [h0], by simp, ?_, ?_⟩
      · intro c hc
        rw [List.mem_singleton] at hc
        rw [hc]; exact hd.1
      · have : decimalValue 0 [Nat.digitChar (n % 10)]
            = 0 * 10 + ((Nat.digitChar (n % 10)).toNat - '0'.toNat) := rfl
        rw [this, hd.2]
        omega
    · obtain ⟨pre, hpre, _, hdig, hval⟩ := ih (n / 10) (Nat.digitChar (n % 10) :: ds) (by omega)
      refine ⟨pre ++ [Nat.digitChar (n % 10)], ?_, by simp, ?_, ?_⟩
      · simp only [h0, if_false]
        rw [hpre]; simp
      · intro c hc
        rcases List.mem_append.mp hc with h | h
        · exact hdig c h
        · rw [List.mem_singleton] at h
          rw [h]; exact hd.1
      · rw [decimalValue_append, hval]
        have : decimalValue (n / 10) [Nat.digitChar (n % 10)]
            = n / 10 * 10 + ((Nat.digitChar (n % 10)).toNat - '0'.toNat) := rfl
        rw [this, hd.2]
        omega

/-- The decimal text of a natural number: nonempty, all digits, of that value. -/
theorem toString_nat_spec (n : Nat) :
    (toString n).data ≠ [] ∧ (∀ c ∈ (toString n).data, c.isDigit = true) ∧
      decimalValue 0 (toString n).data = n := by
  obtain ⟨pre, hpre, hne, hdig, hval⟩ := toDigitsCore_spec (n + 1) n [] (by omega)
  have h : (toString n).data = pre := by
    rw [List.append_nil] at hpre
    exact hpre
  rw [h]
  exact ⟨hne, hdig, hval⟩

/-- A decimal digit is not a sign. -/
theorem isDigit_ne_sign (c : Char) (h : c.isDigit = true) : ¬ (c = '+' ∨ c = '-') := by
  rintro (rfl | rfl) <;> simp [Char.isDigit] at h

/-- The function `ParseInt` reads the decimal text of an integer in range back as that integer. -/
theorem ParseInt_toString (w : Nat) (hw2 : 2 ≤ w) (hw : w ≤ 64) (n : Int)
    (hlo : -(2 : Int) ^ (w - 1) ≤ n) (hhi : n ≤ (2 : Int) ^ (w - 1) - 1) :
    ParseInt (toString n) w = (n, none) := by
  have hcast : ((2 ^ (w - 1) : Nat) : Int) = (2 : Int) ^ (w - 1) := by push_cast; rfl
  have hp1 : 1 ≤ 2 ^ (w - 1) := Nat.two_pow_pos _
  cases n with
  | ofNat m =>
    obtain ⟨hne, hdig, hval⟩ := toString_nat_spec m
    have hs : toString (Int.ofNat m) = toString m := rfl
    rw [hs]
    obtain ⟨c, cs, hcs⟩ := List.exists_cons_of_ne_nil hne
    have hstr : toString m = ⟨c :: cs⟩ := by
      rw [← hcs]
    have hc : c.isDigit = true := hdig c (by rw [hcs]; exact List.mem_cons_self _ _)
    have hsign := isDigit_ne_sign c hc
    rw [hstr, ParseInt_of_digits w hw2 hw c cs (c :: cs) (by rw [if_neg hsign])
      (by simp) (by rw [← hcs]; exact hdig)]
    have hcm : ¬ c = '-' := fun h => hsign (Or.inr h)
    rw [if_neg hcm, ← hcs, hval]
    have : m ≤ 2 ^ (w - 1) - 1 := by
      have h1 : (m : Int) ≤ ((2 ^ (w - 1) : Nat) : Int) - 1 := by rw [hcast]; exact hhi
      omega
    rw [if_pos this]
    rfl
  | negSucc m =>
    obtain ⟨hne, hdig, hval⟩ := toString_nat_spec (m + 1)
    have hs : toString (Int.negSucc m) = ⟨'-' :: (toString (m + 1)).data⟩ := rfl
    rw [hs, ParseInt_of_digits w hw2 hw '-' _ (toString (m + 1)).data (by simp) hne hdig]
    rw [if_pos rfl, hval]
    have : m + 1 ≤ 2 ^ (w - 1) := by
      have h1 : -((2 ^ (w - 1) : Nat) : Int) ≤ Int.negSucc m := by rw [hcast]; exact hlo
      rw [Int.negSucc_eq] at h1
      omega
    rw [if_pos this, Int.negSucc_eq]
    push_cast
    rfl

/-- On an integer column `formatChange` is `ParseInt` at the column's width followed
by the conversion to the column's integer type. -/
theorem formatChange_intTypes (pf : String → Float64 × Option NumError)
    (t : String × Nat × (Int → Value)) (ht : t ∈ intTypes) (s : String) :
    formatChange pf t.1 s = t.2.2 (wrapSigned t.2.1 (ParseInt s t.2.1).1) := by
  simp only [intTypes, List.mem_cons, List.mem_singleton, List.not_mem_nil, or_false] at ht
  rcases ht with rfl | rfl | rfl | rfl <;> simp [formatChange]

/-- The widths of the integer column types lie between 2 and 64. -/
theorem intTypes_width (t : String × Nat × (Int → Value)) (ht : t ∈ intTypes) :
    2 ≤ t.2.1 ∧ t.2.1 ≤ 64 := by
  simp only [intTypes, List.mem_cons, List.mem_singleton, List.not_mem_nil, or_false] at ht
  rcases ht with rfl | rfl | rfl | rfl <;> simp

/-- The value `ParseInt` returns is always a signed integer of the requested width. -/
theorem ParseInt_range (w : Nat) (hw2 : 2 ≤ w) (hw : w ≤ 64) (s : String) :
    -(2 : Int) ^ (w - 1) ≤ (ParseInt s w).1 ∧ (ParseInt s w).1 < (2 : Int) ^ (w - 1) := by
  have hp : 2 ^ (w - 1) ≤ 2 ^ 63 := Nat.pow_le_pow_right (by decide) (by omega)
  have hp1 : 1 ≤ 2 ^ (w - 1) := Nat.two_pow_pos _
  have hcast : ((2 ^ (w - 1) : Nat) : Int) = (2 : Int) ^ (w - 1) := by push_cast; rfl
  rw [← hcast]
  obtain ⟨data⟩ := s
  cases data with
  | nil =>
    have : ParseInt ⟨[]⟩ w = (0, some NumError.ErrSyntax) := rfl
    rw [this]
    constructor <;> simp
  | cons c cs =>
    rw [ParseInt_cons]
    simp only
    generalize (if c = '+' ∨ c = '-' then cs else c :: cs) = body
    by_cases h : (ParseUint body w).2 = some NumError.ErrSyntax
    · rw [if_pos h]
      constructor <;> simp
    · rw [if_neg h, ParseInt_clamp _ hp hp1]
      generalize (ParseUint body w).1 = un
      generalize (2 ^ (w - 1) : Nat) = p at hp1 ⊢
      split_ifs <;> constructor <;> simp <;> omega

/-! ## Type coercer: claims C4, C5, C9 -/

/-- C4: `formatChange` gives the expected typed value for every valid literal: on an
integer column of width `w` the decimal text of every `n` with
`-2^(w-1) ≤ n ≤ 2^(w-1)-1` decodes to `n` in the column's integer type; on a boolean
column `true` and `false` decode to the booleans; and every type other than the four
integer types, `double` and `boolean` (so `varchar`, `date`, `timestamp` and any
unknown type) passes the text through unchanged. -/
theorem formatChange_valid_literal (pf : String → Float64 × Option NumError) :
    (∀ t ∈ intTypes, ∀ n : Int,
        -(2 : Int) ^ (t.2.1 - 1) ≤ n → n ≤ (2 : Int) ^ (t.2.1 - 1) - 1 →
        formatChange pf t.1 (toString n) = t.2.2 n) ∧
    formatChange pf "integer" "42" = Value.int32 42 ∧
    formatChange pf "boolean" "true" = Value.bool true ∧
    formatChange pf "boolean" "false" = Value.bool false ∧
    (∀ ty s : String, ty ∉ ["tinyint", "smallint", "integer", "bigint", "double", "boolean"] →
        formatChange pf ty s = Value.string s) := by
  refine ⟨?_, rfl, rfl, rfl, ?_⟩
  · intro t ht n hlo hhi
    obtain ⟨hw2, hw⟩ := intTypes_width t ht
    rw [formatChange_intTypes pf t ht, ParseInt_toString _ hw2 hw n hlo hhi]
    simp only
    rw [wrapSigned_eq_self _ (by omega) n hlo (by omega)]
  · intro ty s hty
    simp only [List.mem_cons, List.mem_singleton, List.not_mem_nil, or_false, not_or] at hty
    obtain ⟨h1, h2, h3, h4, h5, h6⟩ := hty
    simp [formatChange, h1, h2, h3, h4, h5, h6]

/-- C4 at `smallint` with the smallest 16-bit integer and at an unknown type. -/
theorem formatChange_valid_literal_witness :
    formatChange noFloat "smallint" (toString (-32768 : Int)) = Value.int16 (-32768) ∧
    formatChange noFloat "uuid" "a-b" = Value.string "a-b" :=
  ⟨(formatChange_valid_literal noFloat).1 ("smallint", 16, Value.int16) (by simp [intTypes])
      (-32768) (by norm_num) (by norm_num),
   (formatChange_valid_literal noFloat).2.2.2.2 "uuid" "a-b" (by decide)⟩

/-- The result of `ParseInt` on a well-formed decimal text: a sign (`+`, `-` or none) and digits. -/
theorem ParseInt_wellFormed (w : Nat) (hw2 : 2 ≤ w) (hw : w ≤ 64) (sign ds : List Char)
    (hsign : sign = [] ∨ sign = ['+'] ∨ sign = ['-']) (hne : ds ≠ [])
    (hds : ∀ x ∈ ds, x.isDigit = true) :
    ParseInt ⟨sign ++ ds⟩ w =
      if sign = ['-'] then
        (if decimalValue 0 ds ≤ 2 ^ (w - 1) then (-(decimalValue 0 ds : Int), none)
         else (-(2 : Int) ^ (w - 1), some NumError.ErrRange))
      else
        (if decimalValue 0 ds ≤ 2 ^ (w - 1) - 1 then ((decimalValue 0 ds : Int), none)
         else ((2 : Int) ^ (w - 1) - 1, some NumError.ErrRange)) := by
  rcases hsign with rfl | rfl | rfl
  · obtain ⟨c, cs, rfl⟩ := List.exists_cons_of_ne_nil hne
    have hc : c.isDigit = true := hds c (List.mem_cons_self _ _)
    have hsign := isDigit_ne_sign c hc
    have hcm : ¬ c = '-' := fun h => hsign (Or.inr h)
    have h := ParseInt_of_digits w hw2 hw c cs (c :: cs) (by rw [if_neg hsign]) hne hds
    rw [if_neg hcm] at h
    rw [List.nil_append, if_neg (show ¬ ([] : List Char) = ['-'] by simp)]
    exact h
  · have h := ParseInt_of_digits w hw2 hw '+' ds ds (by simp) hne hds
    rw [if_neg (show ¬ '+' = '-' by decide)] at h
    rw [if_neg (show ¬ ['+'] = ['-'] by decide)]
    exact h
  · have h := ParseInt_of_digits w hw2 hw '-' ds ds (by simp) hne hds
    rw [if_pos rfl] at h
    rw [if_pos rfl]
    exact h

/-- C9: on an integer column of width `w` every well-formed decimal text (a sign `+`,
`-` or none, then one or more digits) whose value is above `2^(w-1)-1` decodes to
`2^(w-1)-1`, and every one whose value is below `-2^(w-1)` decodes to `-2^(w-1)`;
and for every text at all the value `ParseInt` returns is already a signed `w`-bit
integer, so the conversion `int8`/`int16`/`int32`/`int64` in `formatChange` changes nothing. -/
theorem formatChange_out_of_range_clamps (pf : String → Float64 × Option NumError) :
    (∀ t ∈ intTypes, ∀ sign ds : List Char,
        sign = [] ∨ sign = ['+'] ∨ sign = ['-'] → ds ≠ [] → (∀ x ∈ ds, x.isDigit = true) →
        ((2 : Int) ^ (t.2.1 - 1) - 1 < signedValue sign ds →
          formatChange pf t.1 ⟨sign ++ ds⟩ = t.2.2 ((2 : Int) ^ (t.2.1 - 1) - 1)) ∧
        (signedValue sign ds < -(2 : Int) ^ (t.2.1 - 1) →
          formatChange pf t.1 ⟨sign ++ ds⟩ = t.2.2 (-(2 : Int) ^ (t.2.1 - 1)))) ∧
    (∀ t ∈ intTypes, ∀ s : String,
        wrapSigned t.2.1 (ParseInt s t.2.1).1 = (ParseInt s t.2.1).1) := by
  constructor
  · intro t ht sign ds hsign hne hds
    obtain ⟨hw2, hw⟩ := intTypes_width t ht
    have hcast : ((2 ^ (t.2.1 - 1) : Nat) : Int) = (2 : Int) ^ (t.2.1 - 1) := by push_cast; rfl
    have hp1 : 1 ≤ 2 ^ (t.2.1 - 1) := Nat.two_pow_pos _
    have hlt : -(2 : Int) ^ (t.2.1 - 1) ≤ (2 : Int) ^ (t.2.1 - 1) - 1 := by
      rw [← hcast]; omega
    have hwrap1 := wrapSigned_eq_self t.2.1 (by omega) ((2 : Int) ^ (t.2.1 - 1) - 1) hlt
      (by omega)
    have hwrap2 := wrapSigned_eq_self t.2.1 (by omega) (-(2 : Int) ^ (t.2.1 - 1))
      (le_refl _) (by omega)
    rw [formatChange_intTypes pf t ht, ParseInt_wellFormed _ hw2 hw sign ds hsign hne hds]
    unfold signedValue
    rw [← hcast] at hwrap1 hwrap2 ⊢
    by_cases hneg : sign = ['-']
    · simp only [hneg, if_true]
      constructor
      · intro h; omega
      · intro h
        rw [if_neg (by omega)]
        simp only
        rw [hwrap2]
    · simp only [hneg, if_false]
      constructor
      · intro h
        rw [if_neg (by omega)]
        simp only
        rw [hwrap1]
      · intro h; omega
  · intro t ht s
    obtain ⟨hw2, hw⟩ := intTypes_width t ht
    obtain ⟨hlo, hhi⟩ := ParseInt_range t.2.1 hw2 hw s
    exact wrapSigned_eq_self _ (by omega) _ hlo hhi

/-- C9 at `tinyint`: the texts `300` and `-129`. -/
theorem formatChange_out_of_range_clamps_witness :
    formatChange noFloat "tinyint" "300" = Value.int8 127 ∧
    formatChange noFloat "tinyint" "-129" = Value.int8 (-128) :=
  ⟨((formatChange_out_of_range_clamps noFloat).1 ("tinyint", 8, Value.int8)
      (by simp [intTypes]) [] ['3', '0', '0'] (Or.inl rfl) (by simp) (by decide)).1
      (by decide),
   ((formatChange_out_of_range_clamps noFloat).1 ("tinyint", 8, Value.int8)
      (by simp [intTypes]) ['-'] ['1', '2', '9'] (Or.inr (Or.inr rfl)) (by simp)
      (by decide)).2 (by decide)⟩

/-- The function `ParseUint` rejects digits that fit followed by a character that is no digit. -/
theorem ParseUint_rejects (w : Nat) (hw : w ≤ 64) (ds : List Char) (c : Char) (rest : List Char)
    (hds : ∀ x ∈ ds, x.isDigit = true) (hfit : decimalValue 0 ds ≤ 2 ^ w - 1)
    (hc : c.isDigit = false) :
    ParseUint (ds ++ c :: rest) w = (0, some NumError.ErrSyntax) := by
  have hmax : 2 ^ w - 1 < 2 ^ 64 := by
    have : 2 ^ w ≤ 2 ^ 64 := Nat.pow_le_pow_right (by decide) hw
    have : 0 < 2 ^ w := Nat.two_pow_pos w
    omega
  unfold ParseUint
  rw [if_neg (by simp), ParseUintLoop_digits_fit _ hmax ds (c :: rest) 0 hds hfit,
    ParseUintLoop_nondigit _ c rest _ hc]

/-- A syntax error of `ParseUint` on the text after the sign is one of `ParseInt`, with value 0. -/
theorem ParseInt_rejects_of_body (w : Nat) (c0 : Char) (cs body : List Char)
    (hbody : (if c0 = '+' ∨ c0 = '-' then cs else c0 :: cs) = body)
    (h : ParseUint body w = (0, some NumError.ErrSyntax)) :
    ParseInt ⟨c0 :: cs⟩ w = (0, some NumError.ErrSyntax) := by
  rw [ParseInt_cons]
  simp only [hbody, h, if_true]

/-- The function `ParseInt` rejects a sign (`+`, `-` or none), digits that fit the unsigned width, and
then a character that is no digit. -/
theorem ParseInt_rejects (w : Nat) (hw : w ≤ 64) (sign ds : List Char) (c : Char)
    (rest : List Char) (hsign : sign = [] ∨ sign = ['+'] ∨ sign = ['-'])
    (hds : ∀ x ∈ ds, x.isDigit = true) (hfit : decimalValue 0 ds ≤ 2 ^ w - 1)
    (hc : c.isDigit = false) (hfirst : sign = [] → ds = [] → c ≠ '+' ∧ c ≠ '-') :
    ParseInt ⟨sign ++ (ds ++ c :: rest)⟩ w = (0, some NumError.ErrSyntax) := by
  have hU := ParseUint_rejects w hw ds c rest hds hfit hc
  rcases hsign with rfl | rfl | rfl
  · rw [List.nil_append]
    cases ds with
    | nil =>
      obtain ⟨h1, h2⟩ := hfirst rfl rfl
      exact ParseInt_rejects_of_body w c rest (c :: rest)
        (by rw [if_neg (by rintro (h | h) <;> contradiction)]) hU
    | cons d ds =>
      have hd : d.isDigit = true := hds d (List.mem_cons_self _ _)
      exact ParseInt_rejects_of_body w d (ds ++ c :: rest) (d :: ds ++ c :: rest)
        (by rw [if_neg (isDigit_ne_sign d hd)]; rfl) hU
  · exact ParseInt_rejects_of_body w '+' _ _ (by simp) hU
  · exact ParseInt_rejects_of_body w '-' _ _ (by simp) hU

/-- C5 as stated fails: a text that `ParseInt` rejects need not decode to 0; the
`tinyint` text `300` is rejected with a range error and decodes to 127. -/
theorem formatChange_parse_failure_not_zero :
    ¬ (∀ t ∈ intTypes, ∀ s : String, (ParseInt s t.2.1).2 ≠ none →
        formatChange noFloat t.1 s = t.2.2 0) := by
  intro h
  have h1 := h ("tinyint", 8, Value.int8) (by simp [intTypes]) "300" (by decide)
  revert h1
  decide

/-- C5, amended: on an integer column of width `w`, every text that `ParseInt` rejects
with a syntax error decodes to 0 of the column's type.  Such are the empty text, a lone
sign, and a sign (`+`, `-` or none) followed by digits of value at most `2^w - 1`
(possibly none) and then a character that is no digit. -/
theorem formatChange_syntax_error_zero (pf : String → Float64 × Option NumError) :
    ∀ t ∈ intTypes,
      (∀ s ∈ ["", "+", "-"], formatChange pf t.1 s = t.2.2 0) ∧
      (∀ (sign ds : List Char) (c : Char) (rest : List Char),
        sign = [] ∨ sign = ['+'] ∨ sign = ['-'] → (∀ x ∈ ds, x.isDigit = true) →
        decimalValue 0 ds ≤ 2 ^ t.2.1 - 1 → c.isDigit = false →
        (sign = [] → ds = [] → c ≠ '+' ∧ c ≠ '-') →
        formatChange pf t.1 ⟨sign ++ (ds ++ c :: rest)⟩ = t.2.2 0) ∧
      (∀ s : String, (ParseInt s t.2.1).2 = some NumError.ErrSyntax →
        formatChange pf t.1 s = t.2.2 0) := by
  intro t ht
  obtain ⟨hw2, hw⟩ := intTypes_width t ht
  have hzero : wrapSigned t.2.1 0 = 0 :=
    wrapSigned_eq_self _ (by omega) 0 (by simp) (by positivity)
  refine ⟨?_, ?_, ?_⟩
  · intro s hs
    have hP : ParseInt s t.2.1 = (0, some NumError.ErrSyntax) := by
      simp only [List.mem_cons, List.mem_singleton, List.not_mem_nil, or_false] at hs
      rcases hs with rfl | rfl | rfl <;> rfl
    rw [formatChange_intTypes pf t ht, hP]
    simp only
    rw [hzero]
  · intro sign ds c rest hsign hds hfit hc hfirst
    rw [formatChange_intTypes pf t ht,
      ParseInt_rejects _ hw sign ds c rest hsign hds hfit hc hfirst]
    simp only
    rw [hzero]
  · intro s hs
    have hP : (ParseInt s t.2.1).1 = 0 := by
      have hp : 2 ^ (t.2.1 - 1) ≤ 2 ^ 63 := Nat.pow_le_pow_right (by decide) (by omega)
      have hp1 : 1 ≤ 2 ^ (t.2.1 - 1) := Nat.two_pow_pos _
      obtain ⟨data⟩ := s
      cases data with
      | nil => rfl
      | cons c cs =>
        rw [ParseInt_cons] at hs ⊢
        simp only at hs ⊢
        generalize (if c = '+' ∨ c = '-' then cs else c :: cs) = body at hs ⊢
        by_cases h : (ParseUint body t.2.1).2 = some NumError.ErrSyntax
        · rw [if_pos h]
        · rw [if_neg h, ParseInt_clamp _ hp hp1] at hs
          exfalso
          revert hs
          split_ifs <;> simp
    rw [formatChange_intTypes pf t ht, hP, hzero]

/-- C5, amended, at `tinyint`: the texts `abc` and `12x`. -/
theorem formatChange_syntax_error_zero_witness :
    formatChange noFloat "tinyint" "abc" = Value.int8 0 ∧
    formatChange noFloat "tinyint" "12x" = Value.int8 0 :=
  ⟨(formatChange_syntax_error_zero noFloat ("tinyint", 8, Value.int8)
      (by simp [intTypes])).2.1 [] [] 'a' ['b', 'c'] (Or.inl rfl) (by simp) (by decide)
      (by decide) (fun _ _ => by decide),
   (formatChange_syntax_error_zero noFloat ("tinyint", 8, Value.int8)
      (by simp [intTypes])).2.1 [] ['1', '2'] 'x' [] (Or.inl rfl) (by decide) (by decide)
      (by decide) (fun _ h => by simp at h)⟩

/-! ## Row decoder: claims C6, C10 -/

/-- The name and value `processRow` stores for each column that has a cell. -/
theorem processRowLoop_eq (pf : String → Float64 × Option NumError) (row : Row)
    (cols : List ColumnInfo) : ∀ (idx : Nat) (m : GoMap),
    idx + cols.length ≤ row.Data.length →
    processRowLoop pf row cols idx m =
      Except.ok (m.setAll ((cols.zip (row.Data.drop idx)).map
        (fun p => (p.1.Name, cellValue pf p.1 p.2)))) := by
  induction cols with
  | nil => intro idx m _; rfl
  | cons col cols ih =>
    intro idx m h
    simp only [List.length_cons] at h
    have hidx : idx < row.Data.length := by omega
    rw [List.drop_eq_getElem_cons hidx]
    unfold processRowLoop
    rw [List.getElem?_eq_getElem hidx]
    simp only [List.zip_cons_cons, List.map_cons]
    cases hv : (row.Data[idx]).VarCharValue with
    | none =>
      simp only
      rw [ih (idx + 1) _ (by omega)]
      simp [GoMap.setAll, cellValue, hv]
    | some text =>
      simp only
      rw [ih (idx + 1) _ (by omega)]
      simp [GoMap.setAll, cellValue, hv]

/-- The loop of `processRow` panics at the first column without a cell. -/
theorem processRowLoop_panic (pf : String → Float64 × Option NumError) (row : Row)
    (cols : List ColumnInfo) : ∀ (idx : Nat) (m : GoMap),
    idx ≤ row.Data.length → row.Data.length < idx + cols.length →
    processRowLoop pf row cols idx m =
      Except.error (Panic.indexOutOfRange row.Data.length row.Data.length) := by
  induction cols with
  | nil => intro idx m h1 h2; simp at h2; omega
  | cons col cols ih =>
    intro idx m h1 h2
    simp only [List.length_cons] at h2
    unfold processRowLoop
    by_cases hidx : idx < row.Data.length
    · rw [List.getElem?_eq_getElem hidx]
      cases hv : (row.Data[idx]).VarCharValue with
      | none => simp only [hv]; exact ih (idx + 1) _ (by omega) (by omega)
      | some text => simp only [hv]; exact ih (idx + 1) _ (by omega) (by omega)
    · have hEq : idx = row.Data.length := by omega
      rw [List.getElem?_eq_none (by omega)]
      simp only [hEq]

/-- Lookup after an assignment. -/
theorem GoMap.get_set (m : GoMap) (k : String) (v : Value) (k' : String) :
    (m.set k v).get k' = if k = k' then some v else m.get k' := by
  induction m with
  | nil => simp [GoMap.set, GoMap.get]
  | cons kv rest ih =>
    obtain ⟨k0, v0⟩ := kv
    by_cases h : k0 = k
    · subst h
      by_cases h' : k0 = k' <;> simp [GoMap.set, GoMap.get, h']
    · by_cases h' : k0 = k'
      · subst h'
        simp [GoMap.set, GoMap.get, h, Ne.symm h]
      · simp [GoMap.set, GoMap.get, h, h', ih]

/-- The keys after an assignment. -/
theorem GoMap.mem_keys_set (m : GoMap) (k : String) (v : Value) (k' : String) :
    k' ∈ (m.set k v).keys ↔ k' = k ∨ k' ∈ m.keys := by
  induction m with
  | nil => simp [GoMap.set, GoMap.keys]
  | cons kv rest ih =>
    obtain ⟨k0, v0⟩ := kv
    by_cases h : k0 = k
    · subst h
      simp [GoMap.set, GoMap.keys]
    · simp only [GoMap.set, h, if_false]
      simp only [GoMap.keys, List.map_cons, List.mem_cons] at ih ⊢
      rw [ih]
      tauto

/-- The keys after a list of assignments. -/
theorem GoMap.mem_keys_setAll (kvs : List (String × Value)) : ∀ (m : GoMap) (k : String),
    k ∈ (m.setAll kvs).keys ↔ k ∈ kvs.map Prod.fst ∨ k ∈ m.keys := by
  induction kvs with
  | nil => intro m k; simp [GoMap.setAll]
  | cons kv rest ih =>
    intro m k
    have h := ih (m.set kv.1 kv.2) k
    simp only [GoMap.setAll, List.foldl_cons] at h ⊢
    rw [h, GoMap.mem_keys_set]
    simp only [List.map_cons, List.mem_cons]
    tauto

/-- Assignments to other keys leave a lookup unchanged. -/
theorem GoMap.get_setAll_of_not_mem (kvs : List (String × Value)) : ∀ (m : GoMap) (k : String),
    k ∉ kvs.map Prod.fst → (m.setAll kvs).get k = m.get k := by
  induction kvs with
  | nil => intro m k _; rfl
  | cons kv rest ih =>
    intro m k hk
    simp only [List.map_cons, List.mem_cons, not_or] at hk
    have h := ih (m.set kv.1 kv.2) k hk.2
    simp only [GoMap.setAll, List.foldl_cons] at h ⊢
    rw [h, GoMap.get_set, if_neg (Ne.symm hk.1)]

/-- With distinct keys, a lookup after a list of assignments finds the assigned value. -/
theorem GoMap.get_setAll_of_mem (kvs : List (String × Value)) : ∀ (m : GoMap) (k : String)
    (v : Value), (kvs.map Prod.fst).Nodup → (k, v) ∈ kvs → (m.setAll kvs).get k = some v := by
  induction kvs with
  | nil => intro m k v _ h; simp at h
  | cons kv rest ih =>
    intro m k v hnd hmem
    simp only [List.map_cons, List.nodup_cons] at hnd
    rcases List.mem_cons.mp hmem with h | h
    · subst h
      have h2 := GoMap.get_setAll_of_not_mem rest (m.set k v) k hnd.1
      simp only [GoMap.setAll, List.foldl_cons] at h2 ⊢
      rw [h2, GoMap.get_set, if_pos rfl]
    · have h2 := ih (m.set kv.1 kv.2) k v hnd.2 h
      simp only [GoMap.setAll, List.foldl_cons] at h2 ⊢
      exact h2

/-- What `processRow` returns on a row with at least one cell per column. -/
theorem processRow_eq (pf : String → Float64 × Option NumError) (row : Row)
    (cols : List ColumnInfo) (h : cols.length ≤ row.Data.length) :
    processRow pf row cols =
      Except.ok (GoMap.setAll [] ((cols.zip row.Data).map
        (fun p => (p.1.Name, cellValue pf p.1 p.2))), none) := by
  unfold processRow
  rw [processRowLoop_eq pf row cols 0 [] (by omega)]
  simp

/-- Cells beyond the last column do not take part in the pairing of columns and cells. -/
theorem zip_take_length (cols : List ColumnInfo) (cells : List Datum)
    (h : cols.length ≤ cells.length) : cols.zip (cells.take cols.length) = cols.zip cells := by
  have h1 : (cols ++ []).zip (cells.take cols.length ++ cells.drop cols.length)
      = cols.zip (cells.take cols.length) ++ List.zip [] (cells.drop cols.length) :=
    List.zip_append (by simp; omega)
  rw [List.take_append_drop, List.append_nil] at h1
  rw [h1]; simp

/-- C6: for column descriptors with pairwise distinct names and a row with one cell per
column, `processRow` returns a nil error and a map whose keys are exactly the column
names, and in which the value under a column's name is `nil` when the cell at the
column's position has no text and `formatChange` of the declared type and the text
otherwise. -/
theorem processRow_decodes (pf : String → Float64 × Option NumError)
    (cols : List ColumnInfo) (row : Row)
    (hnd : (cols.map ColumnInfo.Name).Nodup) (hlen : row.Data.length = cols.length) :
    ∃ m : GoMap, processRow pf row cols = Except.ok (m, none) ∧
      (∀ k, k ∈ m.keys ↔ k ∈ cols.map ColumnInfo.Name) ∧
      (∀ (i : Nat) (col : ColumnInfo) (d : Datum), cols[i]? = some col → row.Data[i]? = some d →
        (d.VarCharValue = none → m.get col.Name = some Value.nil) ∧
        (∀ text, d.VarCharValue = some text →
          m.get col.Name = some (formatChange pf col.Type_ text))) := by
  have hkeys : ((cols.zip row.Data).map (fun p => (p.1.Name, cellValue pf p.1 p.2))).map Prod.fst
      = cols.map ColumnInfo.Name := by
    rw [List.map_map]
    have : (Prod.fst ∘ fun p : ColumnInfo × Datum => (p.1.Name, cellValue pf p.1 p.2))
        = ColumnInfo.Name ∘ Prod.fst := rfl
    rw [this, ← List.map_map, List.map_fst_zip _ _ (by omega)]
  refine ⟨_, processRow_eq pf row cols (by omega), ?_, ?_⟩
  · intro k
    rw [GoMap.mem_keys_setAll, hkeys]
    simp [GoMap.keys]
  · intro i col d hc hd
    have hz : (cols.zip row.Data)[i]? = some (col, d) :=
      List.getElem?_zip_eq_some.mpr ⟨hc, hd⟩
    have hmem : (col, d) ∈ cols.zip row.Data := List.getElem?_mem hz
    have hkv : (col.Name, cellValue pf col d)
        ∈ (cols.zip row.Data).map (fun p => (p.1.Name, cellValue pf p.1 p.2)) :=
      List.mem_map.mpr ⟨(col, d), hmem, rfl⟩
    have hget := GoMap.get_setAll_of_mem _ [] _ _ (by rw [hkeys]; exact hnd) hkv
    constructor
    · intro hv
      rw [hget]; simp [cellValue, hv]
    · intro text hv
      rw [hget]; simp [cellValue, hv]

/-- C6 on the scenario's columns and the row `1`, no text. -/
theorem processRow_decodes_witness :
    ∃ m : GoMap,
      processRow noFloat { Data := [{ VarCharValue := some "1" }, { VarCharValue := none }] }
        scenarioColumns = Except.ok (m, none) ∧
      (∀ k, k ∈ m.keys ↔ k ∈ scenarioColumns.map ColumnInfo.Name) ∧
      m.get "id" = some (formatChange noFloat "integer" "1") ∧
      m.get "name" = some Value.nil := by
  obtain ⟨m, h1, h2, h3⟩ := processRow_decodes noFloat scenarioColumns
    { Data := [{ VarCharValue := some "1" }, { VarCharValue := none }] } (by decide) rfl
  exact ⟨m, h1, h2,
    (h3 0 { Name := "id", Type_ := "integer" } { VarCharValue := some "1" } rfl rfl).2 "1" rfl,
    (h3 1 { Name := "name", Type_ := "varchar" } { VarCharValue := none } rfl rfl).1 rfl⟩

/-- C10: `processRow` indexes `row.Data` by column position without a length check.  A
row with at least as many cells as columns decodes to a map with a nil error, the same
as the row cut down to its first cells, one per column; a row with fewer cells than
columns makes `processRow` panic with an index out of range, at the index that is the
number of cells, and nothing is returned. -/
theorem processRow_index (pf : String → Float64 × Option NumError) :
    (∀ (row : Row) (cols : List ColumnInfo), cols.length ≤ row.Data.length →
      ∃ m : GoMap, processRow pf row cols = Except.ok (m, none) ∧
        processRow pf { Data := row.Data.take cols.length } cols = Except.ok (m, none)) ∧
    (∀ (row : Row) (cols : List ColumnInfo), row.Data.length < cols.length →
      processRow pf row cols
        = Except.error (Panic.indexOutOfRange row.Data.length row.Data.length)) := by
  constructor
  · intro row cols h
    refine ⟨_, processRow_eq pf row cols h, ?_⟩
    rw [processRow_eq pf _ cols (by simp; omega)]
    simp only
    rw [zip_take_length cols row.Data h]
  · intro row cols h
    unfold processRow
    rw [processRowLoop_panic pf row cols 0 [] (by omega) (by omega)]

/-- C10 on the scenario's two columns: a row of three cells and a row of one cell. -/
theorem processRow_index_witness :
    (∃ m : GoMap,
      processRow noFloat
        { Data := [{ VarCharValue := some "1" }, { VarCharValue := some "a" },
                   { VarCharValue := some "x" }] } scenarioColumns = Except.ok (m, none) ∧
      processRow noFloat (textRow "1" "a") scenarioColumns = Except.ok (m, none)) ∧
    processRow noFloat { Data := [{ VarCharValue := some "1" }] } scenarioColumns
      = Except.error (Panic.indexOutOfRange 1 1) :=
  ⟨(processRow_index noFloat).1
      { Data := [{ VarCharValue := some "1" }, { VarCharValue := some "a" },
                 { VarCharValue := some "x" }] } scenarioColumns (by decide),
   (processRow_index noFloat).2 { Data := [{ VarCharValue := some "1" }] } scenarioColumns
      (by decide)⟩

/-! ## Result paginator: claims C1, C8 -/

/-- On a row with a cell for every column `processRow` returns `rowMap` and a nil error. -/
theorem processRow_eq_rowMap (pf : String → Float64 × Option NumError) (row : Row)
    (cols : List ColumnInfo) (h : cols.length ≤ row.Data.length) :
    processRow pf row cols = Except.ok (rowMap pf cols row, none) :=
  processRow_eq pf row cols h

/-- The inner loop decodes every row but the one at index 0. -/
theorem processRows_eq (pf : String → Float64 × Option NumError) (cols : List ColumnInfo)
    (rows : List Row) : ∀ (idx : Nat) (acc : List GoMap),
    (∀ r ∈ rows, cols.length ≤ r.Data.length) →
    processRows pf cols rows idx acc =
      Except.ok (Except.ok
        (acc ++ (if idx = 0 then rows.drop 1 else rows).map (rowMap pf cols))) := by
  induction rows with
  | nil => intro idx acc _; simp [processRows]
  | cons r rows ih =>
    intro idx acc h
    have hr := h r (List.mem_cons_self _ _)
    have hrest : ∀ x ∈ rows, cols.length ≤ x.Data.length :=
      fun x hx => h x (List.mem_cons_of_mem _ hx)
    unfold processRows
    by_cases h0 : idx = 0
    · subst h0
      simp only [ne_eq, not_true_eq_false, if_false, if_true, List.drop_succ_cons, List.drop_zero]
      rw [ih 1 acc hrest]
      simp
    · simp only [ne_eq, h0, not_false_eq_true, if_true, if_false]
      rw [processRow_eq_rowMap pf r cols hr]
      simp only
      rw [ih (idx + 1) _ hrest]
      simp

/-- The first clause of `Serves` in terms of `ServesAfter`. -/
theorem Serves_cons (svc : Athena) (qeID : Option String) (hist : List Call)
    (tok : Option String) (p : GetQueryResultsOutput) (rest : List GetQueryResultsOutput)
    (final : Option GoError) :
    Serves svc qeID hist tok (p :: rest) final ↔
      svc.GetQueryResults hist { QueryExecutionId := qeID, NextToken := tok } = Except.ok p ∧
      ServesAfter svc qeID
        (hist ++ [Call.GetQueryResults { QueryExecutionId := qeID, NextToken := tok }])
        p rest final := by
  unfold ServesAfter
  rw [Serves]

/-- The page loop, entered with the page `res`, decodes the rows at positions 1 and up
of `res` and of the pages that follow, and stops at the first page without a token or
at the first failing request. -/
theorem processResultRowsLoop_eq (pf : String → Float64 × Option NumError) (svc : Athena)
    (qeID : Option String) (cols : List ColumnInfo) (final : Option GoError)
    (rest : List GetQueryResultsOutput) :
    ∀ (res : GetQueryResultsOutput) (fuel : Nat) (hist : List Call) (acc : List GoMap),
    ServesAfter svc qeID hist res rest final →
    (∀ p ∈ res :: rest, ∀ r ∈ p.ResultSet.Rows, cols.length ≤ r.Data.length) →
    rest.length < fuel →
    processResultRowsLoop pf svc qeID cols fuel hist res acc =
      (Outcome.returned (acc ++ (tailRows (res :: rest)).map (rowMap pf cols), final),
        hist ++ fetchesAfter qeID res rest) := by
  induction rest with
  | nil =>
    intro res fuel hist acc hs hrows hfuel
    obtain ⟨f, rfl⟩ : ∃ f, fuel = f + 1 := ⟨fuel - 1, by omega⟩
    have hres := hrows res (List.mem_cons_self _ _)
    unfold processResultRowsLoop
    rw [processRows_eq pf cols _ 0 acc hres]
    simp only [if_true]
    unfold ServesAfter at hs
    unfold fetchesAfter
    cases htok : res.NextToken with
    | none =>
      rw [htok] at hs
      simp only [hs.2, tailRows, List.map_cons, List.map_nil, List.flatten_cons, List.flatten_nil,
        List.append_nil]
    | some t =>
      rw [htok] at hs
      obtain ⟨e, he, hfail⟩ := (by simpa [Serves] using hs :
        ∃ e, final = some e ∧ svc.GetQueryResults hist
          { QueryExecutionId := qeID, NextToken := some t } = Except.error e)
      simp only [hfail, he, tailRows, List.map_cons, List.map_nil, List.flatten_cons,
        List.flatten_nil, List.append_nil, fetches]
  | cons p rest ih =>
    intro res fuel hist acc hs hrows hfuel
    simp only [List.length_cons] at hfuel
    obtain ⟨f, rfl⟩ : ∃ f, fuel = f + 1 := ⟨fuel - 1, by omega⟩
    have hres := hrows res (List.mem_cons_self _ _)
    unfold processResultRowsLoop
    rw [processRows_eq pf cols _ 0 acc hres]
    simp only [if_true]
    unfold ServesAfter at hs
    unfold fetchesAfter
    cases htok : res.NextToken with
    | none =>
      rw [htok] at hs
      simp at hs
    | some t =>
      rw [htok] at hs
      simp only at hs
      rw [Serves_cons] at hs
      obtain ⟨hget, hafter⟩ := hs
      simp only [hget]
      rw [ih p f _ _ hafter (fun q hq => hrows q (List.mem_cons_of_mem _ hq)) (by omega)]
      simp only [tailRows, List.map_cons, List.flatten_cons, List.map_append, List.append_assoc,
        fetches, fetchesAfter]
      cases p.NextToken <;> simp

/-- The page requests along `pages` start with the request under the first token. -/
theorem fetches_cons (qeID : Option String) (tok : Option String) (p : GetQueryResultsOutput)
    (rest : List GetQueryResultsOutput) :
    fetches qeID tok (p :: rest) =
      Call.GetQueryResults { QueryExecutionId := qeID, NextToken := tok } ::
        fetchesAfter qeID p rest := by
  unfold fetchesAfter
  rw [fetches]

/-- What `processResultRows` returns when the service hands out the pages `p1 :: rest`:
the rows at positions 1 and up of every page, decoded with the columns of `p1`. -/
theorem processResultRows_eq (pf : String → Float64 × Option NumError) (svc : Athena)
    (qeID : Option String) (hist : List Call) (p1 : GetQueryResultsOutput)
    (rest : List GetQueryResultsOutput) (final : Option GoError) (fuel : Nat)
    (hserve : Serves svc qeID hist none (p1 :: rest) final)
    (hcols : p1.ResultSet.ResultSetMetadata.ColumnInfo ≠ [])
    (hrows : ∀ p ∈ p1 :: rest, ∀ r ∈ p.ResultSet.Rows,
      p1.ResultSet.ResultSetMetadata.ColumnInfo.length ≤ r.Data.length)
    (hfuel : rest.length < fuel) :
    processResultRows pf svc fuel hist qeID =
      (Outcome.returned
        ((tailRows (p1 :: rest)).map (rowMap pf p1.ResultSet.ResultSetMetadata.ColumnInfo),
          final),
        hist ++ fetches qeID none (p1 :: rest)) := by
  rw [Serves_cons] at hserve
  obtain ⟨hget, hafter⟩ := hserve
  have hlen : ¬ p1.ResultSet.ResultSetMetadata.ColumnInfo.length = 0 := by
    rw [List.length_eq_zero]; exact hcols
  unfold processResultRows
  simp only [hget, hlen, if_false]
  rw [processResultRowsLoop_eq pf svc qeID _ final rest p1 fuel _ [] hafter hrows hfuel,
    fetches_cons]
  simp

/-- A list and its image under `f` are related row by row when every row is related to
its image. -/
theorem forall₂_map_of_forall {α β : Type} (R : α → β → Prop) (f : α → β) (l : List α)
    (h : ∀ a ∈ l, R a (f a)) : List.Forall₂ R l (l.map f) := by
  induction l with
  | nil => exact List.Forall₂.nil
  | cons a l ih =>
    exact List.Forall₂.cons (h a (List.mem_cons_self _ _))
      (ih (fun x hx => h x (List.mem_cons_of_mem _ hx)))

/-- The number of rows at positions 1 and up. -/
theorem length_tailRows (pages : List GetQueryResultsOutput) :
    (tailRows pages).length = (pages.map (fun p => p.ResultSet.Rows.length - 1)).sum := by
  induction pages with
  | nil => rfl
  | cons p pages ih =>
    simp only [tailRows, List.map_cons, List.flatten_cons, List.length_append,
      List.length_drop, List.sum_cons] at ih ⊢
    rw [ih]

/-- The rows at positions 1 and up come from the pages. -/
theorem mem_tailRows (pages : List GetQueryResultsOutput) (r : Row) (h : r ∈ tailRows pages) :
    ∃ p ∈ pages, r ∈ p.ResultSet.Rows := by
  simp only [tailRows, List.mem_flatten, List.mem_map] at h
  obtain ⟨l, ⟨p, hp, rfl⟩, hr⟩ := h
  exact ⟨p, hp, List.mem_of_mem_drop hr⟩

/-- C8: `processResultRows` skips the row at position 0 of every page and decodes every
page with the columns of the first page.  When the service hands out the pages
`p1 :: rest` along their tokens, the last one without a token, the first page has a
column and every row has one cell per column, it returns with a nil error, after
exactly the page requests along the tokens, the rows at positions 1 and up of every
page in page order, each decoded by `processRow` with the columns of the first page;
their number is the sum over the pages of the number of rows less one (truncated at
zero), so a page of a single row adds nothing. -/
theorem processResultRows_skips_row_zero_of_every_page
    (pf : String → Float64 × Option NumError) (svc : Athena)
    (qeID : Option String) (hist : List Call) (p1 : GetQueryResultsOutput)
    (rest : List GetQueryResultsOutput) (fuel : Nat)
    (hserve : Serves svc qeID hist none (p1 :: rest) none)
    (hcols : p1.ResultSet.ResultSetMetadata.ColumnInfo ≠ [])
    (hrows : ∀ p ∈ p1 :: rest, ∀ r ∈ p.ResultSet.Rows,
      r.Data.length = p1.ResultSet.ResultSetMetadata.ColumnInfo.length)
    (hfuel : rest.length < fuel) :
    ∃ out : List GoMap,
      processResultRows pf svc fuel hist qeID
        = (Outcome.returned (out, none), hist ++ fetches qeID none (p1 :: rest)) ∧
      List.Forall₂
        (fun row m =>
          processRow pf row p1.ResultSet.ResultSetMetadata.ColumnInfo = Except.ok (m, none))
        (((p1 :: rest).map (fun p => p.ResultSet.Rows.drop 1)).flatten) out ∧
      out.length = ((p1 :: rest).map (fun p => p.ResultSet.Rows.length - 1)).sum := by
  have hrows' : ∀ p ∈ p1 :: rest, ∀ r ∈ p.ResultSet.Rows,
      p1.ResultSet.ResultSetMetadata.ColumnInfo.length ≤ r.Data.length :=
    fun p hp r hr => le_of_eq (hrows p hp r hr).symm
  refine ⟨_, processResultRows_eq pf svc qeID hist p1 rest none fuel hserve hcols hrows' hfuel,
    ?_, ?_⟩
  · apply forall₂_map_of_forall
    intro r hr
    obtain ⟨p, hp, hrp⟩ := mem_tailRows _ r hr
    exact processRow_eq_rowMap pf r _ (hrows' p hp r hrp)
  · rw [List.length_map, length_tailRows]

/-- C8 on the two pages of the scenario. -/
theorem processResultRows_skips_row_zero_of_every_page_witness :
    ∃ out : List GoMap,
      processResultRows noFloat scenarioAthena 2 [] (some "H")
        = (Outcome.returned (out, none),
            [] ++ fetches (some "H") none [scenarioPage1, scenarioPage2]) ∧
      List.Forall₂
        (fun row m => processRow noFloat row scenarioColumns = Except.ok (m, none))
        (([scenarioPage1, scenarioPage2].map (fun p => p.ResultSet.Rows.drop 1)).flatten) out ∧
      out.length = ([scenarioPage1, scenarioPage2].map
        (fun p => p.ResultSet.Rows.length - 1)).sum :=
  processResultRows_skips_row_zero_of_every_page noFloat scenarioAthena (some "H") []
    scenarioPage1 [scenarioPage2] 2 ⟨rfl, rfl, rfl, rfl⟩ (by decide) (by decide) (by decide)

/-- C1 on the scenario of the specification: page 1 holds the header and the rows
`1 a`, `2 b` and carries the token `p2`, page 2 holds the row `3 c`.  The claim asks for
three rows; `processResultRows` returns two, the row `3 c` at position 0 of page 2
being skipped like the header. -/
theorem processResultRows_scenario_drops_row :
    processResultRows noFloat scenarioAthena 2 [] (some "H")
      = (Outcome.returned
          ([[("id", Value.int32 1), ("name", Value.string "a")],
            [("id", Value.int32 2), ("name", Value.string "b")]], none),
         [Call.GetQueryResults { QueryExecutionId := some "H", NextToken := none },
          Call.GetQueryResults { QueryExecutionId := some "H", NextToken := some "p2" }]) ∧
    processRow noFloat (textRow "3" "c") scenarioColumns
      = Except.ok ([("id", Value.int32 3), ("name", Value.string "c")], none) := by
  exact ⟨by decide, rfl⟩

/-! ## Completion poller: claim C3 -/

/-- One more status request. -/
theorem polls_succ (qeID : Option String) (n : Nat) :
    polls qeID (n + 1) = Call.GetQueryExecution { QueryExecutionId := qeID } :: polls qeID n :=
  rfl

/-- After the observations `obs` the next status request is answered with `last`. -/
theorem Observes_last (svc : Athena) (qeID : Option String) (obs : List String)
    (last : Except GoError GetQueryExecutionOutput) : ∀ hist : List Call,
    Observes svc qeID hist obs last →
    svc.GetQueryExecution (hist ++ polls qeID obs.length) { QueryExecutionId := qeID } = last := by
  induction obs with
  | nil => intro hist h; simpa [polls, Observes] using h
  | cons s obs ih =>
    intro hist h
    rw [Observes] at h
    have := ih _ h.2
    rw [List.length_cons, polls_succ]
    simpa using this

/-- Queued and Running are none of the three states the poller returns on. -/
theorem nonterminal_of_queued_or_running (s : String)
    (h : s = QueryExecutionStateQueued ∨ s = QueryExecutionStateRunning) :
    s ≠ QueryExecutionStateCancelled ∧ s ≠ QueryExecutionStateFailed ∧
      s ≠ QueryExecutionStateSucceeded := by
  rcases h with rfl | rfl <;> decide

/-- The poller goes through observations that are not terminal, one request each. -/
theorem WaitForQueryToComplete_skips (svc : Athena) (qeID : Option String) (obs : List String)
    (last : Except GoError GetQueryExecutionOutput) (f : Nat) : ∀ hist : List Call,
    Observes svc qeID hist obs last →
    (∀ s ∈ obs, s = QueryExecutionStateQueued ∨ s = QueryExecutionStateRunning) →
    WaitForQueryToComplete svc qeID (obs.length + f) hist
      = WaitForQueryToComplete svc qeID f (hist ++ polls qeID obs.length) := by
  induction obs with
  | nil => intro hist _ _; simp [polls]
  | cons s obs ih =>
    intro hist h hs
    rw [Observes] at h
    obtain ⟨h1, h2, h3⟩ := nonterminal_of_queued_or_running s (hs s (List.mem_cons_self _ _))
    have hfuel : (s :: obs).length + f = (obs.length + f) + 1 := by
      simp only [List.length_cons]; omega
    rw [hfuel, WaitForQueryToComplete]
    simp only [h.1, h1, h2, h3, if_false]
    rw [ih _ h.2 (fun x hx => hs x (List.mem_cons_of_mem _ hx)), List.length_cons, polls_succ]
    simp

/-- The last round of the poller, on an answer that ends it. -/
theorem WaitForQueryToComplete_last (svc : Athena) (qeID : Option String) (obs : List String)
    (last : Except GoError GetQueryExecutionOutput) (fuel : Nat) (hist : List Call)
    (hserve : Observes svc qeID hist obs last)
    (hobs : ∀ s ∈ obs, s = QueryExecutionStateQueued ∨ s = QueryExecutionStateRunning)
    (hfuel : obs.length < fuel) :
    WaitForQueryToComplete svc qeID fuel hist =
      match last with
      | Except.error err =>
        (Outcome.returned (some err), hist ++ polls qeID (obs.length + 1))
      | Except.ok out =>
        if out.State = QueryExecutionStateCancelled then
          (Outcome.returned (some "query execution is cancelled"),
            hist ++ polls qeID (obs.length + 1))
        else if out.State = QueryExecutionStateFailed then
          (Outcome.returned (some "query execution is failed"),
            hist ++ polls qeID (obs.length + 1))
        else if out.State = QueryExecutionStateSucceeded then
          (Outcome.returned none, hist ++ polls qeID (obs.length + 1))
        else
          WaitForQueryToComplete svc qeID (fuel - obs.length - 1)
            (hist ++ polls qeID (obs.length + 1)) := by
  obtain ⟨f, rfl⟩ : ∃ f, fuel = obs.length + (f + 1) := ⟨fuel - obs.length - 1, by omega⟩
  have hpolls : hist ++ polls qeID (obs.length + 1)
      = (hist ++ polls qeID obs.length) ++ [Call.GetQueryExecution { QueryExecutionId := qeID }] := by
    simp [polls, List.replicate_succ']
  rw [WaitForQueryToComplete_skips svc qeID obs last (f + 1) hist hserve hobs,
    WaitForQueryToComplete, Observes_last svc qeID obs last hist hserve, hpolls]
  have hf : obs.length + (f + 1) - obs.length - 1 = f := by omega
  rw [hf]
  cases last <;> rfl

/-- C3: when the status requests are answered with `k` observations that are each
Queued or Running and then with `last`, `WaitForQueryToComplete` makes exactly `k + 1`
status requests and returns: the transport error when `last` is one, nil when `last`
is Succeeded, and a non-nil error when `last` is Failed or Cancelled; so on a terminal
observation it returns nil exactly when the observation is Succeeded. -/
theorem WaitForQueryToComplete_polls (svc : Athena) (qeID : Option String) (hist : List Call)
    (obs : List String) (last : Except GoError GetQueryExecutionOutput) (fuel : Nat)
    (hobs : ∀ s ∈ obs, s = QueryExecutionStateQueued ∨ s = QueryExecutionStateRunning)
    (hserve : Observes svc qeID hist obs last)
    (hfuel : obs.length < fuel) :
    (∀ e, last = Except.error e →
      WaitForQueryToComplete svc qeID fuel hist
        = (Outcome.returned (some e), hist ++ polls qeID (obs.length + 1))) ∧
    (last = Except.ok { State := QueryExecutionStateSucceeded } →
      WaitForQueryToComplete svc qeID fuel hist
        = (Outcome.returned none, hist ++ polls qeID (obs.length + 1))) ∧
    (last = Except.ok { State := QueryExecutionStateFailed } →
      WaitForQueryToComplete svc qeID fuel hist
        = (Outcome.returned (some "query execution is failed"),
            hist ++ polls qeID (obs.length + 1))) ∧
    (last = Except.ok { State := QueryExecutionStateCancelled } →
      WaitForQueryToComplete svc qeID fuel hist
        = (Outcome.returned (some "query execution is cancelled"),
            hist ++ polls qeID (obs.length + 1))) ∧
    (polls qeID (obs.length + 1)).length = obs.length + 1 := by
  refine ⟨?_, ?_, ?_, ?_, by simp [polls]⟩
  · intro e he; subst he
    exact WaitForQueryToComplete_last svc qeID obs _ fuel hist hserve hobs hfuel
  · intro he; subst he
    exact WaitForQueryToComplete_last svc qeID obs _ fuel hist hserve hobs hfuel
  · intro he; subst he
    exact WaitForQueryToComplete_last svc qeID obs _ fuel hist hserve hobs hfuel
  · intro he; subst he
    exact WaitForQueryToComplete_last svc qeID obs _ fuel hist hserve hobs hfuel

/-- C3 on the scenario: Running, Running, Succeeded. -/
theorem WaitForQueryToComplete_polls_witness :
    WaitForQueryToComplete scenarioAthena (some "H") 3 []
      = (Outcome.returned none, [] ++ polls (some "H") 3) :=
  (WaitForQueryToComplete_polls scenarioAthena (some "H") []
    [QueryExecutionStateRunning, QueryExecutionStateRunning]
    (Except.ok { State := QueryExecutionStateSucceeded }) 3
    (by decide) ⟨rfl, rfl, rfl⟩ (by decide)).2.1 rfl

/-! ## Orchestrator and submitter: claims C7, C2 -/

/-- The result of `ExecuteQuery` when the poller returns an error: that error, no rows, no further call. -/
theorem ExecuteQuery_of_poll_error (pf : String → Float64 × Option NumError) (svc : Athena)
    (fuel : Nat) (hist : List Call) (qeID : Option String) (e : GoError) (h : List Call)
    (hw : WaitForQueryToComplete svc qeID fuel hist = (Outcome.returned (some e), h)) :
    ExecuteQuery pf svc fuel hist qeID = (Outcome.returned ([], some e), h) := by
  unfold ExecuteQuery
  rw [hw]

/-- The result of `ExecuteQuery` when the poller returns nil and `processResultRows` an error: that
error and no rows, whatever rows `processResultRows` returned with it. -/
theorem ExecuteQuery_of_rows_error (pf : String → Float64 × Option NumError) (svc : Athena)
    (fuel : Nat) (hist : List Call) (qeID : Option String) (h h' : List Call)
    (rows : List GoMap) (e : GoError)
    (hw : WaitForQueryToComplete svc qeID fuel hist = (Outcome.returned none, h))
    (hp : processResultRows pf svc fuel h qeID = (Outcome.returned (rows, some e), h')) :
    ExecuteQuery pf svc fuel hist qeID = (Outcome.returned ([], some e), h') := by
  unfold ExecuteQuery
  rw [hw]
  simp only
  rw [hp]

/-- The result of `ExecuteQuery` when the poller returns nil and `processResultRows` rows with a nil
error: those rows. -/
theorem ExecuteQuery_of_rows (pf : String → Float64 × Option NumError) (svc : Athena)
    (fuel : Nat) (hist : List Call) (qeID : Option String) (h h' : List Call)
    (rows : List GoMap)
    (hw : WaitForQueryToComplete svc qeID fuel hist = (Outcome.returned none, h))
    (hp : processResultRows pf svc fuel h qeID = (Outcome.returned (rows, none), h')) :
    ExecuteQuery pf svc fuel hist qeID = (Outcome.returned (rows, none), h') := by
  unfold ExecuteQuery
  rw [hw]
  simp only
  rw [hp]

/-- C7: `ExecuteQuery` is polling followed by row collection, and it stops at the first
error.  Let the status requests be answered with `k` observations Queued or Running and
then with `last`.  If `last` is a transport error, Failed or Cancelled, `ExecuteQuery`
returns that error and no rows after the `k + 1` status requests and no other call, so
no page is fetched.  If `last` is Succeeded: a failing first page request, a first page
without columns, and a failing later page request each make it return that error and
no rows (also when `processResultRows` hands back the rows decoded so far) with the
failing request as the last call; and whenever `processResultRows` returns rows with a
nil error, `ExecuteQuery` returns exactly those rows with a nil error. -/
theorem ExecuteQuery_short_circuits (pf : String → Float64 × Option NumError) (svc : Athena)
    (qeID : Option String) (hist : List Call) (obs : List String)
    (last : Except GoError GetQueryExecutionOutput) (fuel : Nat)
    (hobs : ∀ s ∈ obs, s = QueryExecutionStateQueued ∨ s = QueryExecutionStateRunning)
    (hpoll : Observes svc qeID hist obs last)
    (hfuel : obs.length < fuel) :
    (∀ e, last = Except.error e →
      ExecuteQuery pf svc fuel hist qeID
        = (Outcome.returned ([], some e), hist ++ polls qeID (obs.length + 1))) ∧
    (last = Except.ok { State := QueryExecutionStateFailed } →
      ExecuteQuery pf svc fuel hist qeID
        = (Outcome.returned ([], some "query execution is failed"),
            hist ++ polls qeID (obs.length + 1))) ∧
    (last = Except.ok { State := QueryExecutionStateCancelled } →
      ExecuteQuery pf svc fuel hist qeID
        = (Outcome.returned ([], some "query execution is cancelled"),
            hist ++ polls qeID (obs.length + 1))) ∧
    (last = Except.ok { State := QueryExecutionStateSucceeded } →
      (∀ e, svc.GetQueryResults (hist ++ polls qeID (obs.length + 1))
              { QueryExecutionId := qeID, NextToken := none } = Except.error e →
        ExecuteQuery pf svc fuel hist qeID
          = (Outcome.returned ([], some e),
              hist ++ polls qeID (obs.length + 1)
                ++ [Call.GetQueryResults { QueryExecutionId := qeID, NextToken := none }])) ∧
      (∀ p, svc.GetQueryResults (hist ++ polls qeID (obs.length + 1))
              { QueryExecutionId := qeID, NextToken := none } = Except.ok p →
        p.ResultSet.ResultSetMetadata.ColumnInfo = [] →
        ExecuteQuery pf svc fuel hist qeID
          = (Outcome.returned ([], some "zero column info"),
              hist ++ polls qeID (obs.length + 1)
                ++ [Call.GetQueryResults { QueryExecutionId := qeID, NextToken := none }])) ∧
      (∀ (p1 : GetQueryResultsOutput) (rest : List GetQueryResultsOutput) (e : GoError),
        Serves svc qeID (hist ++ polls qeID (obs.length + 1)) none (p1 :: rest) (some e) →
        p1.ResultSet.ResultSetMetadata.ColumnInfo ≠ [] →
        (∀ p ∈ p1 :: rest, ∀ r ∈ p.ResultSet.Rows,
          p1.ResultSet.ResultSetMetadata.ColumnInfo.length ≤ r.Data.length) →
        rest.length < fuel →
        processResultRows pf svc fuel (hist ++ polls qeID (obs.length + 1)) qeID
          = (Outcome.returned
              ((tailRows (p1 :: rest)).map
                (rowMap pf p1.ResultSet.ResultSetMetadata.ColumnInfo), some e),
              hist ++ polls qeID (obs.length + 1) ++ fetches qeID none (p1 :: rest)) ∧
        ExecuteQuery pf svc fuel hist qeID
          = (Outcome.returned ([], some e),
              hist ++ polls qeID (obs.length + 1) ++ fetches qeID none (p1 :: rest))) ∧
      (∀ (rows : List GoMap) (h : List Call),
        processResultRows pf svc fuel (hist ++ polls qeID (obs.length + 1)) qeID
          = (Outcome.returned (rows, none), h) →
        ExecuteQuery pf svc fuel hist qeID = (Outcome.returned (rows, none), h))) := by
  refine ⟨?_, ?_, ?_, ?_⟩
  · intro e he
    subst he
    exact ExecuteQuery_of_poll_error pf svc fuel hist qeID e _
      (WaitForQueryToComplete_last svc qeID obs _ fuel hist hpoll hobs hfuel)
  · intro he
    subst he
    exact ExecuteQuery_of_poll_error pf svc fuel hist qeID _ _
      (WaitForQueryToComplete_last svc qeID obs _ fuel hist hpoll hobs hfuel)
  · intro he
    subst he
    exact ExecuteQuery_of_poll_error pf svc fuel hist qeID _ _
      (WaitForQueryToComplete_last svc qeID obs _ fuel hist hpoll hobs hfuel)
  · intro he
    subst he
    have hw : WaitForQueryToComplete svc qeID fuel hist
        = (Outcome.returned none, hist ++ polls qeID (obs.length + 1)) :=
      WaitForQueryToComplete_last svc qeID obs _ fuel hist hpoll hobs hfuel
    refine ⟨?_, ?_, ?_, ?_⟩
    · intro e hfetch
      apply ExecuteQuery_of_rows_error pf svc fuel hist qeID _ _ [] e hw
      unfold processResultRows
      simp only [hfetch]
    · intro p hfetch hcols
      apply ExecuteQuery_of_rows_error pf svc fuel hist qeID _ _ [] _ hw
      unfold processResultRows
      simp only [hfetch, hcols, List.length_nil, if_true]
    · intro p1 rest e hserve hcols hrows hf
      have hp := processResultRows_eq pf svc qeID _ p1 rest (some e) fuel hserve hcols hrows hf
      exact ⟨hp, ExecuteQuery_of_rows_error pf svc fuel hist qeID _ _ _ e hw hp⟩
    · intro rows h hp
      exact ExecuteQuery_of_rows pf svc fuel hist qeID _ _ rows hw hp

/-- C7 on a service that fails the request for the second page: the two rows of the
first page are decoded, and `ExecuteQuery` returns the error with no rows. -/
theorem ExecuteQuery_short_circuits_witness :
    processResultRows noFloat throttledAthena 2 ([] ++ polls (some "H") 2) (some "H")
      = (Outcome.returned
          ((tailRows [scenarioPage1]).map (rowMap noFloat scenarioColumns),
            some "ThrottlingException"),
          [] ++ polls (some "H") 2 ++ fetches (some "H") none [scenarioPage1]) ∧
    ExecuteQuery noFloat throttledAthena 2 [] (some "H")
      = (Outcome.returned ([], some "ThrottlingException"),
          [] ++ polls (some "H") 2 ++ fetches (some "H") none [scenarioPage1]) :=
  ((ExecuteQuery_short_circuits noFloat throttledAthena (some "H") []
    [QueryExecutionStateQueued] (Except.ok { State := QueryExecutionStateSucceeded }) 2
    (by decide) ⟨rfl, rfl⟩ (by decide)).2.2.2 rfl).2.2.1
    scenarioPage1 [] "ThrottlingException" ⟨rfl, "ThrottlingException", rfl, rfl⟩
    (by decide) (by decide) (by decide)

/-- C2 on the bindings of the scenario, which hold `cart` only, and the name `orders`:
whatever the service, `PrepareQuery` sends it a `StartQueryExecution` request with an
empty database name and an empty output location; with the service of the scenario it
returns the handle `H` and a nil error. -/
theorem PrepareQuery_unregistered_name_calls_service :
    (∀ (svc : Athena) (hist : List Call),
      (PrepareQuery svc scenarioConfig hist "orders" "select * from t").2
        = hist ++ [Call.StartQueryExecution
            { QueryString := "select * from t", Database := "", OutputLocation := "" }]) ∧
    PrepareQuery scenarioAthena scenarioConfig [] "orders" "select * from t"
      = ((some "H", none),
          [Call.StartQueryExecution
            { QueryString := "select * from t", Database := "", OutputLocation := "" }]) := by
  refine ⟨?_, by decide⟩
  intro svc hist
  have hcfg : ¬ scenarioConfig.DbConfig.length = 0 := by decide
  have hdb : dbConfigIndex scenarioConfig.DbConfig "orders"
      = { Name := "", SourceBulk := "", ResultBulk := "" } := by decide
  unfold PrepareQuery
  rw [if_neg hcfg, hdb]
  simp only
  cases svc.StartQueryExecution hist
    { QueryString := "select * from t", Database := "", OutputLocation := "" } <;> rfl

end Bda
